import Mathlib

/-!
Verification of the chat backend's message codec, unread-counter triggers,
send/read handlers, and message archiver, shallowly embedded from the
JavaScript source (src/utils/encryption.js, src/utils/messageCompression.js,
src/socket.js, src/routes/chat.js, the chat SQL schema and the archiver).

Modelling conventions:
* JavaScript strings are modelled by their byte sequences (`JStr := List Nat`,
  each element one UTF-8 code unit / byte). `Buffer.from(s, 'utf8')` and
  `buf.toString('utf8')` are therefore identities, and all size limits count
  these units.
* External library primitives (AES-256-GCM, sha256, gzip, base64, uuid) are
  modelled by concrete executable functions that keep the properties the
  repository code relies on: the cipher is length-preserving and invertible
  with an authentication tag recomputed on decrypt, gzip is invertible and
  its output is recognisable by its leading magic bytes, base64/hex are the
  real digit codings.
* Fallible operations return `Except String`; a JavaScript `try`/`catch`
  whose handler returns a value is translated by the value of that handler.
-/

namespace ChatSpec

/-- A JavaScript string, modelled as its list of UTF-8 code units. -/
abbrev JStr := List Nat

/-! ### Hex coding (Buffer `'hex'` encoding used by encryption.js) -/

/-- Lower-case hex digit for a value `< 16` (`0`-`9` then `a`-`f`). -/
def hexDigitChar (n : Nat) : Nat := if n < 10 then 48 + n else 87 + n

/-- `buf.toString('hex')`: two lower-case hex digits per byte. -/
def hexEncode (bs : List Nat) : List Nat :=
  bs.flatMap fun b => [hexDigitChar (b / 16), hexDigitChar (b % 16)]

/-- Value of one hex digit, upper or lower case (`Buffer.from(_, 'hex')`). -/
def hexVal? (c : Nat) : Option Nat :=
  if 48 ≤ c ∧ c ≤ 57 then some (c - 48)
  else if 97 ≤ c ∧ c ≤ 102 then some (c - 87)
  else if 65 ≤ c ∧ c ≤ 70 then some (c - 55)
  else none

/-- `Buffer.from(s, 'hex')`: consume hex-digit pairs, stop at the first
invalid pair, drop a trailing lone digit. -/
def hexDecode : List Nat → List Nat
  | c1 :: c2 :: rest =>
    match hexVal? c1, hexVal? c2 with
    | some h, some l => (16 * h + l) :: hexDecode rest
    | _, _ => []
  | _ => []

/-- The check `/^[0-9a-f]+$/i.test s` from decrypt. -/
def isHexString (xs : List Nat) : Bool :=
  !xs.isEmpty && xs.all fun c => (hexVal? c).isSome

theorem hexVal?_hexDigitChar {n : Nat} (h : n < 16) :
    hexVal? (hexDigitChar n) = some n := by
  unfold hexVal? hexDigitChar
  split_ifs <;> simp_all <;> omega

theorem hexDigitChar_ne_colon (n : Nat) : hexDigitChar n ≠ 58 := by
  unfold hexDigitChar; split_ifs <;> omega

theorem hexDigitChar_ne_C {n : Nat} (h : n < 16) : hexDigitChar n ≠ 67 := by
  unfold hexDigitChar; split_ifs <;> omega

theorem hexEncode_cons (b : Nat) (rest : List Nat) :
    hexEncode (b :: rest) =
      hexDigitChar (b / 16) :: hexDigitChar (b % 16) :: hexEncode rest := by
  simp [hexEncode]

theorem hexEncode_length (bs : List Nat) : (hexEncode bs).length = 2 * bs.length := by
  induction bs with
  | nil => rfl
  | cons b rest ih => rw [hexEncode_cons]; simp [ih]; omega

theorem hexDecode_hexEncode {bs : List Nat} (h : ∀ b ∈ bs, b < 256) :
    hexDecode (hexEncode bs) = bs := by
  induction bs with
  | nil => rfl
  | cons b rest ih =>
    have hb : b < 256 := h b (by simp)
    have h1 : b / 16 < 16 := by omega
    have h2 : b % 16 < 16 := by omega
    rw [hexEncode_cons]
    simp only [hexDecode, hexVal?_hexDigitChar h1, hexVal?_hexDigitChar h2]
    rw [ih fun x hx => h x (by simp [hx])]
    congr 1
    omega

theorem mem_hexEncode {bs : List Nat} (h : ∀ b ∈ bs, b < 256) :
    ∀ c ∈ hexEncode bs, (hexVal? c).isSome ∧ c ≠ 58 ∧ c ≠ 67 := by
  induction bs with
  | nil => simp [hexEncode]
  | cons b rest ih =>
    intro c hc
    have hb : b < 256 := h b (by simp)
    rw [hexEncode_cons] at hc
    simp only [List.mem_cons] at hc
    rcases hc with rfl | rfl | hc
    · exact ⟨by rw [hexVal?_hexDigitChar (by omega)]; rfl,
        hexDigitChar_ne_colon _, hexDigitChar_ne_C (by omega)⟩
    · exact ⟨by rw [hexVal?_hexDigitChar (by omega)]; rfl,
        hexDigitChar_ne_colon _, hexDigitChar_ne_C (by omega)⟩
    · exact ih (fun x hx => h x (by simp [hx])) c hc

theorem isHexString_hexEncode {bs : List Nat} (hne : bs ≠ []) (h : ∀ b ∈ bs, b < 256) :
    isHexString (hexEncode bs) = true := by
  unfold isHexString
  have hlen : (hexEncode bs).length = 2 * bs.length := hexEncode_length bs
  have : (hexEncode bs) ≠ [] := by
    intro hemp
    rw [hemp] at hlen
    cases bs with
    | nil => exact hne rfl
    | cons x xs => simp at hlen
  simp only [Bool.and_eq_true, List.all_eq_true]
  constructor
  · simpa [List.isEmpty_iff] using this
  · intro c hc
    exact ((mem_hexEncode h c hc).1)

/-! ### Base64 coding (Buffer `'base64'` encoding used by messageCompression.js) -/

/-- Base64 alphabet character for a sextet `< 64`. -/
def b64Char (i : Nat) : Nat :=
  if i < 26 then 65 + i
  else if i < 52 then 71 + i
  else if i < 62 then i - 4
  else if i = 62 then 43
  else 47

/-- Sextet value of a base64 alphabet character. -/
def b64Val? (c : Nat) : Option Nat :=
  if 65 ≤ c ∧ c ≤ 90 then some (c - 65)
  else if 97 ≤ c ∧ c ≤ 122 then some (c - 71)
  else if 48 ≤ c ∧ c ≤ 57 then some (c + 4)
  else if c = 43 then some 62
  else if c = 47 then some 63
  else none

/-- `buf.toString('base64')`: standard base64 with `=` padding
(each 24-bit group split into four sextets). -/
def base64Encode : List Nat → List Nat
  | a :: b :: c :: rest =>
      b64Char ((a * 65536 + b * 256 + c) / 262144) ::
      b64Char ((a * 65536 + b * 256 + c) / 4096 % 64) ::
      b64Char ((a * 65536 + b * 256 + c) / 64 % 64) ::
      b64Char ((a * 65536 + b * 256 + c) % 64) :: base64Encode rest
  | [a, b] =>
      [b64Char ((a * 256 + b) * 4 / 4096), b64Char ((a * 256 + b) * 4 / 64 % 64),
        b64Char ((a * 256 + b) * 4 % 64), 61]
  | [a] => [b64Char (a * 16 / 64), b64Char (a * 16 % 64), 61, 61]
  | [] => []

/-- Reassemble bytes from a list of sextet values (groups of four sextets
give three bytes; a trailing group of three gives two, of two gives one,
a lone trailing sextet is dropped). -/
def b64DecodeChunks : List Nat → List Nat
  | d0 :: d1 :: d2 :: d3 :: rest =>
      (d0 * 262144 + d1 * 4096 + d2 * 64 + d3) / 65536 ::
      (d0 * 262144 + d1 * 4096 + d2 * 64 + d3) / 256 % 256 ::
      (d0 * 262144 + d1 * 4096 + d2 * 64 + d3) % 256 :: b64DecodeChunks rest
  | [d0, d1, d2] =>
      [(d0 * 4096 + d1 * 64 + d2) / 1024, (d0 * 4096 + d1 * 64 + d2) / 4 % 256]
  | [d0, d1] => [(d0 * 64 + d1) / 16]
  | _ => []

/-- `Buffer.from(s, 'base64')`: Node's lenient decoder — ignore characters
outside the alphabet, stop at the first `=`. -/
def base64DecodeLenient (xs : List Nat) : List Nat :=
  b64DecodeChunks ((xs.takeWhile fun c => c != 61).filterMap b64Val?)

/-- The base64-format regex check from decodeAndDecompress
(alphabet characters or padding, at least one character). -/
def isB64FormatOk (xs : List Nat) : Bool :=
  !xs.isEmpty && xs.all fun c => (b64Val? c).isSome || c == 61

theorem b64Val?_b64Char {i : Nat} (h : i < 64) : b64Val? (b64Char i) = some i := by
  unfold b64Val? b64Char
  split_ifs <;> simp_all <;> omega

theorem b64Char_ne_61 {i : Nat} (h : i < 64) : b64Char i ≠ 61 := by
  unfold b64Char; split_ifs <;> omega

theorem base64Encode_length : ∀ bs : List Nat,
    (base64Encode bs).length = 4 * ((bs.length + 2) / 3)
  | a :: b :: c :: rest => by
    have ih := base64Encode_length rest
    simp only [base64Encode, List.length_cons, ih]
    omega
  | [a, b] => by simp [base64Encode]
  | [a] => by simp [base64Encode]
  | [] => rfl

theorem takeWhile_append_of_all {p : Nat → Bool} {xs ys : List Nat}
    (h : ∀ x ∈ xs, p x = true) :
    (xs ++ ys).takeWhile p = xs ++ ys.takeWhile p := by
  induction xs with
  | nil => rfl
  | cons x rest ih =>
    have hx : p x = true := h x (by simp)
    simp only [List.cons_append, List.takeWhile_cons, hx, if_true]
    rw [ih fun a ha => h a (by simp [ha])]

theorem mem_base64Encode_valid : ∀ bs : List Nat, (∀ b ∈ bs, b < 256) →
    ∀ c ∈ base64Encode bs, (b64Val? c).isSome = true ∨ c = 61
  | a :: b :: c :: rest, h => by
    intro x hx
    have ha : a < 256 := h a (by simp)
    have hb : b < 256 := h b (by simp)
    have hc : c < 256 := h c (by simp)
    simp only [base64Encode, List.mem_cons] at hx
    rcases hx with rfl | rfl | rfl | rfl | hx
    · exact Or.inl (by rw [b64Val?_b64Char (by omega)]; rfl)
    · exact Or.inl (by rw [b64Val?_b64Char (by omega)]; rfl)
    · exact Or.inl (by rw [b64Val?_b64Char (by omega)]; rfl)
    · exact Or.inl (by rw [b64Val?_b64Char (by omega)]; rfl)
    · exact mem_base64Encode_valid rest (fun y hy => h y (by simp [hy])) x hx
  | [a, b], h => by
    intro x hx
    have ha : a < 256 := h a (by simp)
    have hb : b < 256 := h b (by simp)
    simp only [base64Encode, List.mem_cons] at hx
    rcases hx with rfl | rfl | rfl | rfl | hx
    · exact Or.inl (by rw [b64Val?_b64Char (by omega)]; rfl)
    · exact Or.inl (by rw [b64Val?_b64Char (by omega)]; rfl)
    · exact Or.inl (by rw [b64Val?_b64Char (by omega)]; rfl)
    · exact Or.inr rfl
    · simp at hx
  | [a], h => by
    intro x hx
    have ha : a < 256 := h a (by simp)
    simp only [base64Encode, List.mem_cons] at hx
    rcases hx with rfl | rfl | rfl | rfl | hx
    · exact Or.inl (by rw [b64Val?_b64Char (by omega)]; rfl)
    · exact Or.inl (by rw [b64Val?_b64Char (by omega)]; rfl)
    · exact Or.inr rfl
    · exact Or.inr rfl
    · simp at hx
  | [], _ => by intro x hx; simp [base64Encode] at hx

theorem isB64FormatOk_base64Encode {bs : List Nat} (hne : bs ≠ [])
    (h : ∀ b ∈ bs, b < 256) : isB64FormatOk (base64Encode bs) = true := by
  unfold isB64FormatOk
  have hlen := base64Encode_length bs
  have hne' : base64Encode bs ≠ [] := by
    intro hemp
    rw [hemp] at hlen
    cases bs with
    | nil => exact hne rfl
    | cons x xs => simp at hlen; omega
  simp only [Bool.and_eq_true, List.all_eq_true]
  refine ⟨by simpa [List.isEmpty_iff] using hne', ?_⟩
  intro c hc
  rcases mem_base64Encode_valid bs h c hc with hv | rfl
  · simp [hv]
  · simp

theorem base64_roundtrip : ∀ bs : List Nat, (∀ b ∈ bs, b < 256) →
    base64DecodeLenient (base64Encode bs) = bs
  | a :: b :: c :: rest, h => by
    have ha : a < 256 := h a (by simp)
    have hb : b < 256 := h b (by simp)
    have hc : c < 256 := h c (by simp)
    have ih := base64_roundtrip rest fun y hy => h y (by simp [hy])
    have hd0 : (a * 65536 + b * 256 + c) / 262144 < 64 := by omega
    have hd1 : (a * 65536 + b * 256 + c) / 4096 % 64 < 64 := by omega
    have hd2 : (a * 65536 + b * 256 + c) / 64 % 64 < 64 := by omega
    have hd3 : (a * 65536 + b * 256 + c) % 64 < 64 := by omega
    unfold base64DecodeLenient at ih ⊢
    simp only [base64Encode, List.takeWhile_cons,
      bne_iff_ne, ne_eq, b64Char_ne_61 hd0, b64Char_ne_61 hd1, b64Char_ne_61 hd2,
      b64Char_ne_61 hd3, not_false_eq_true, if_true, List.filterMap_cons,
      b64Val?_b64Char hd0, b64Val?_b64Char hd1, b64Val?_b64Char hd2, b64Val?_b64Char hd3]
    simp only [b64DecodeChunks]
    rw [show ((a * 65536 + b * 256 + c) / 262144) * 262144 +
        ((a * 65536 + b * 256 + c) / 4096 % 64) * 4096 +
        ((a * 65536 + b * 256 + c) / 64 % 64) * 64 +
        (a * 65536 + b * 256 + c) % 64 = a * 65536 + b * 256 + c by omega]
    rw [ih]
    congr 1
    · omega
    congr 1
    · omega
    congr 1
    omega
  | [a, b], h => by
    have ha : a < 256 := h a (by simp)
    have hb : b < 256 := h b (by simp)
    have hd0 : (a * 256 + b) * 4 / 4096 < 64 := by omega
    have hd1 : (a * 256 + b) * 4 / 64 % 64 < 64 := by omega
    have hd2 : (a * 256 + b) * 4 % 64 < 64 := by omega
    unfold base64DecodeLenient
    simp only [base64Encode, List.takeWhile_cons,
      bne_iff_ne, ne_eq, b64Char_ne_61 hd0, b64Char_ne_61 hd1, b64Char_ne_61 hd2,
      not_false_eq_true, if_true, List.filterMap_cons,
      b64Val?_b64Char hd0, b64Val?_b64Char hd1, b64Val?_b64Char hd2]
    norm_num
    simp only [b64DecodeChunks]
    congr 1
    · omega
    congr 1
    omega
  | [a], h => by
    have ha : a < 256 := h a (by simp)
    have hd0 : a * 16 / 64 < 64 := by omega
    have hd1 : a * 16 % 64 < 64 := by omega
    unfold base64DecodeLenient
    simp only [base64Encode, List.takeWhile_cons,
      bne_iff_ne, ne_eq, b64Char_ne_61 hd0, b64Char_ne_61 hd1,
      not_false_eq_true, if_true, List.filterMap_cons,
      b64Val?_b64Char hd0, b64Val?_b64Char hd1]
    norm_num
    simp only [b64DecodeChunks]
    congr 1
    omega
  | [], _ => rfl

/-! ### gzip model (external zlib collaborator of messageCompression.js) -/

/-- Model of `zlib.gzip`: the two gzip magic bytes, a four-byte
little-endian payload length, then the payload.  Keeps the properties the
repository relies on: invertible, and recognisable by its leading bytes. -/
def gzipModel (bs : List Nat) : List Nat :=
  31 :: 139 :: bs.length % 256 :: bs.length / 256 % 256 ::
    bs.length / 65536 % 256 :: bs.length / 16777216 % 256 :: bs

/-- Model of `zlib.gunzip`: succeeds exactly on well-formed `gzipModel`
streams, fails (as the real gunzip fails on data that is not gzip) on
anything else. -/
def gunzipModel : List Nat → Option (List Nat)
  | 31 :: 139 :: l0 :: l1 :: l2 :: l3 :: payload =>
    if payload.length = l0 + 256 * l1 + 65536 * l2 + 16777216 * l3 then some payload
    else none
  | _ => none

theorem gunzipModel_gzipModel {bs : List Nat} (h : bs.length < 4294967296) :
    gunzipModel (gzipModel bs) = some bs := by
  simp only [gzipModel, gunzipModel]
  rw [if_pos (by omega)]

theorem gzipModel_length (bs : List Nat) : (gzipModel bs).length = bs.length + 6 := by
  simp [gzipModel]

/-! ### messageCompression.js -/

/-- `compressMessage` (src/utils/messageCompression.js): gzip the text;
inputs longer than 50000 characters throw inside `try`, and the `catch`
returns `Buffer.from(text, 'utf8')`, i.e. the original bytes.  The net
effect of the function together with its catch handler is modelled. -/
def compressMessage (text : JStr) : JStr :=
  if text.length > 50000 then text
  else gzipModel text

/-- `decompressMessage`: gunzip the buffer; an over-large buffer or a
gunzip failure throws inside `try`, and the `catch` returns
`compressedBuffer.toString('utf8')`, i.e. the original bytes. -/
def decompressMessage (buf : JStr) : JStr :=
  if buf.length > 100000 then buf
  else
    match gunzipModel buf with
    | some s => s
    | none => buf

/-- `compressAndEncode`: compress then base64-encode. -/
def compressAndEncode (text : JStr) : JStr :=
  base64Encode (compressMessage text)

/-- `decodeAndDecompress`: validate, base64-decode, decompress.  On a
validation failure the `catch` attempts a direct lenient base64 decode and
returns it when non-empty, otherwise rethrows. -/
def decodeAndDecompress (base64Data : JStr) : Except String JStr :=
  if base64Data.isEmpty then .error "Cannot decode: base64Data is empty"
  else if !isB64FormatOk base64Data then
    -- the thrown format error is caught; the catch tries a direct decode
    let directDecode := base64DecodeLenient base64Data
    if directDecode.isEmpty then .error "Invalid base64 format"
    else .ok directDecode
  else
    let buffer := base64DecodeLenient base64Data
    if buffer.isEmpty then
      -- "empty or invalid buffer" is thrown; the catch direct-decodes the
      -- same bytes, which are again empty, so the error propagates
      .error "Base64 decoding produced empty or invalid buffer"
    else .ok (decompressMessage buffer)

/-! ### encryption.js -/

/-- Model of the sha256 content digest over the original plaintext.  Only
its determinism matters to the verified claims; modelled as the plaintext
itself. -/
def sha256Model (bs : JStr) : JStr := bs

/-- Model of the AES-256-GCM authentication tag: sixteen identical bytes
derived from the nonce and the ciphertext.  Decrypt recomputes it and
rejects a mismatch, which models GCM authentication. -/
def authTagModel (iv ct : List Nat) : List Nat :=
  List.replicate 16 ((iv.foldl (· + ·) 0 + ct.foldl (· + ·) 0) % 256)

/-- The AES-256-GCM keystream cipher is length-preserving and invertible;
with the key and nonce fixed per call it is modelled as the identity on
bytes (its confidentiality is immaterial to the claims). -/
def aesGcmCipher (bs : List Nat) : List Nat := bs

/-- Result of `encrypt` (src/utils/encryption.js). -/
structure EncryptResult where
  encrypted : JStr
  hash : JStr
  isCompressed : Bool
  deriving Repr, DecidableEq

/-- `encrypt(text, useCompression)` (src/utils/encryption.js lines 26-110),
with the fresh random nonce `iv` supplied by the environment.  Texts over
100000 characters are rejected; texts longer than 100 characters are
compressed (the compression fallback for oversized texts happens inside
`compressMessage` and still sets `isCompressed`, hence the `C` marker);
output is `hex(iv) : hex(tag) : hex(ciphertext)`, `C`-prefixed when
compressed. -/
def encryptModel (iv : List Nat) (text : JStr) (useCompression : Bool := true) :
    Except String EncryptResult :=
  if text.length > 100000 then .error "Message too large"
  else
    let compressPath := useCompression && decide (text.length > 100)
    let dataToEncrypt := if compressPath then compressAndEncode text else text
    let encrypted := hexEncode (aesGcmCipher dataToEncrypt)
    if encrypted.isEmpty then .error "Encryption produced empty result"
    else
      let encryptedData :=
        hexEncode iv ++ 58 :: hexEncode (authTagModel iv (aesGcmCipher dataToEncrypt))
          ++ 58 :: encrypted
      .ok { encrypted := if compressPath then 67 :: encryptedData else encryptedData
            hash := sha256Model text
            isCompressed := compressPath }

/-- `s.split(':')` on byte 58. -/
def splitColon : List Nat → List (List Nat)
  | [] => [[]]
  | c :: rest =>
    if c = 58 then [] :: splitColon rest
    else
      match splitColon rest with
      | h :: t => (c :: h) :: t
      | [] => [[c]]

/-- Stage of `decrypt` (src/utils/encryption.js lines 156-235) after the
payload is split on `:`: validate the three parts, check authentication,
decipher, and — when the input was `C`-marked — decompress, returning the
deciphered payload as-is when decompression fails (the
backward-compatibility fallback of lines 213-228). -/
def decryptTail (isCompressed : Bool) (parts : List (List Nat)) : Except String JStr :=
  match parts with
  | [p0, p1, p2] =>
    if isHexString p0 && isHexString p1 && isHexString p2 then
      let iv := hexDecode p0
      let authTag := hexDecode p1
      if iv.length ≠ 16 then .error "Invalid IV length"
      else if authTag.length ≠ 16 then .error "Invalid auth tag length"
      else if p2.isEmpty then .error "Invalid encrypted data: encrypted content is empty"
      else
        let ct := hexDecode p2
        if authTag ≠ authTagModel iv ct then
          .error "Decryption authentication failed"
        else
          let decrypted := aesGcmCipher ct
          if isCompressed then
            match decodeAndDecompress decrypted with
            | .ok decompressed => .ok decompressed
            | .error _ => .ok decrypted
          else .ok decrypted
    else .error "Invalid encrypted data format: contains non-hex characters"
  | _ => .error "Invalid encrypted data format: expected three parts"

/-- `decrypt(encryptedData)` (src/utils/encryption.js lines 112-255).
A leading `C` marks compression; after the size checks the payload is
split on `:` and handed to `decryptTail`. -/
def decryptModel (encryptedData : JStr) : Except String JStr :=
  if encryptedData.isEmpty then .error "Invalid encrypted data: cannot be empty"
  else if encryptedData.length > 200000 then .error "Encrypted data too large"
  else
    let isCompressed := encryptedData.head? == some 67
    let dataToDecrypt := if isCompressed then encryptedData.tail else encryptedData
    if dataToDecrypt.length < 48 then .error "Invalid encrypted data: too short to be valid"
    else decryptTail isCompressed (splitColon dataToDecrypt)

theorem decryptTail_eq3 (isCompressed : Bool) (p0 p1 p2 : List Nat) :
    decryptTail isCompressed [p0, p1, p2] =
      (if isHexString p0 && isHexString p1 && isHexString p2 then
        if (hexDecode p0).length ≠ 16 then .error "Invalid IV length"
        else if (hexDecode p1).length ≠ 16 then .error "Invalid auth tag length"
        else if p2.isEmpty then .error "Invalid encrypted data: encrypted content is empty"
        else if hexDecode p1 ≠ authTagModel (hexDecode p0) (hexDecode p2) then
          .error "Decryption authentication failed"
        else if isCompressed then
          match decodeAndDecompress (aesGcmCipher (hexDecode p2)) with
          | .ok decompressed => .ok decompressed
          | .error _ => .ok (aesGcmCipher (hexDecode p2))
        else .ok (aesGcmCipher (hexDecode p2))
      else .error "Invalid encrypted data format: contains non-hex characters") := rfl

/-! ### Codec round-trip support lemmas -/

theorem b64Val?_isSome_lt256 {c : Nat} (h : (b64Val? c).isSome = true) : c < 256 := by
  unfold b64Val? at h
  split_ifs at h <;> first | omega | simp at h

theorem mem_base64Encode_lt256 {bs : List Nat} (h : ∀ b ∈ bs, b < 256) :
    ∀ c ∈ base64Encode bs, c < 256 := by
  intro c hc
  rcases mem_base64Encode_valid bs h c hc with hv | rfl
  · exact b64Val?_isSome_lt256 hv
  · omega

theorem mem_gzipModel_lt256 {bs : List Nat} (h : ∀ b ∈ bs, b < 256) :
    ∀ c ∈ gzipModel bs, c < 256 := by
  intro c hc
  simp only [gzipModel, List.mem_cons] at hc
  rcases hc with rfl | rfl | rfl | rfl | rfl | rfl | hc
  · omega
  · omega
  · omega
  · omega
  · omega
  · omega
  · exact h c hc

theorem mem_compressMessage_lt256 {text : JStr} (h : ∀ b ∈ text, b < 256) :
    ∀ c ∈ compressMessage text, c < 256 := by
  unfold compressMessage
  split_ifs
  · exact h
  · exact mem_gzipModel_lt256 h

theorem compressMessage_ne_nil {text : JStr} (hne : text ≠ []) :
    compressMessage text ≠ [] := by
  unfold compressMessage
  split_ifs
  · exact hne
  · simp [gzipModel]

theorem hexEncode_ne_nil {bs : List Nat} (hne : bs ≠ []) : hexEncode bs ≠ [] := by
  intro hemp
  have := hexEncode_length bs
  rw [hemp] at this
  cases bs with
  | nil => exact hne rfl
  | cons x xs => simp at this

theorem authTagModel_length (iv ct : List Nat) : (authTagModel iv ct).length = 16 := by
  simp [authTagModel]

theorem mem_authTagModel_lt256 (iv ct : List Nat) :
    ∀ b ∈ authTagModel iv ct, b < 256 := by
  intro b hb
  simp only [authTagModel, List.mem_replicate] at hb
  omega

theorem splitColon_no_colon {a : List Nat} (h : 58 ∉ a) : splitColon a = [a] := by
  induction a with
  | nil => rfl
  | cons c rest ih =>
    have hc : c ≠ 58 := fun hc => h (by simp [hc])
    have hrest : 58 ∉ rest := fun hr => h (by simp [hr])
    simp only [splitColon, if_neg hc, ih hrest]

theorem splitColon_append {a r : List Nat} (h : 58 ∉ a) :
    splitColon (a ++ 58 :: r) = a :: splitColon r := by
  induction a with
  | nil => simp [splitColon]
  | cons c rest ih =>
    have hc : c ≠ 58 := fun hc => h (by simp [hc])
    have hrest : 58 ∉ rest := fun hr => h (by simp [hr])
    simp only [List.cons_append, splitColon, if_neg hc, List.append_eq]
    rw [ih hrest]

theorem decompressMessage_compressMessage {text : JStr}
    (hlen : text.length ≤ 100000)
    (hgz : 50000 < text.length → gunzipModel text = none) :
    decompressMessage (compressMessage text) = text := by
  unfold compressMessage
  split_ifs with h50
  · unfold decompressMessage
    rw [if_neg (by omega), hgz h50]
  · unfold decompressMessage
    rw [if_neg (by rw [gzipModel_length]; omega),
      gunzipModel_gzipModel (by omega)]

theorem decodeAndDecompress_compressAndEncode {text : JStr}
    (hb : ∀ b ∈ text, b < 256) (hne : text ≠ [])
    (hlen : text.length ≤ 100000)
    (hgz : 50000 < text.length → gunzipModel text = none) :
    decodeAndDecompress (compressAndEncode text) = .ok text := by
  have hcmb : ∀ b ∈ compressMessage text, b < 256 := mem_compressMessage_lt256 hb
  have hcmne : compressMessage text ≠ [] := compressMessage_ne_nil hne
  have hb64ne : base64Encode (compressMessage text) ≠ [] := by
    intro hemp
    have := base64Encode_length (compressMessage text)
    rw [hemp] at this
    cases hcm : compressMessage text with
    | nil => exact hcmne hcm
    | cons x xs => rw [hcm] at this; simp at this; omega
  unfold compressAndEncode decodeAndDecompress
  rw [if_neg (by simpa [List.isEmpty_iff] using hb64ne)]
  rw [if_neg (by rw [isB64FormatOk_base64Encode hcmne hcmb]; simp)]
  rw [base64_roundtrip _ hcmb]
  rw [if_neg (by simpa [List.isEmpty_iff] using hcmne)]
  rw [decompressMessage_compressMessage hlen hgz]

theorem base64Encode_ne_nil {bs : List Nat} (hne : bs ≠ []) : base64Encode bs ≠ [] := by
  intro hemp
  have := base64Encode_length bs
  rw [hemp] at this
  cases bs with
  | nil => exact hne rfl
  | cons x xs => simp at this; omega

theorem splitColon_encBody {iv tag d : List Nat}
    (hiv : ∀ b ∈ iv, b < 256) (htag : ∀ b ∈ tag, b < 256) (hd : ∀ b ∈ d, b < 256) :
    splitColon (hexEncode iv ++ 58 :: hexEncode tag ++ 58 :: hexEncode d) =
      [hexEncode iv, hexEncode tag, hexEncode d] := by
  have h1 : 58 ∉ hexEncode iv := fun hmem => (mem_hexEncode hiv 58 hmem).2.1 rfl
  have h2 : 58 ∉ hexEncode tag := fun hmem => (mem_hexEncode htag 58 hmem).2.1 rfl
  have h3 : 58 ∉ hexEncode d := fun hmem => (mem_hexEncode hd 58 hmem).2.1 rfl
  rw [List.append_assoc, List.cons_append, splitColon_append h1,
    splitColon_append h2, splitColon_no_colon h3]

theorem encBody_length (iv tag d : List Nat) :
    (hexEncode iv ++ 58 :: hexEncode tag ++ 58 :: hexEncode d).length =
      2 * iv.length + 2 * tag.length + 2 * d.length + 2 := by
  simp [hexEncode_length]
  omega

/-- Processing of an uncompressed well-formed payload by `decrypt`. -/
theorem decryptModel_body {iv d : List Nat}
    (hivlen : iv.length = 16) (hiv : ∀ b ∈ iv, b < 256)
    (hd : ∀ b ∈ d, b < 256) (hdne : d ≠ [])
    (hfit : (hexEncode iv ++ 58 :: hexEncode (authTagModel iv d) ++ 58 :: hexEncode d).length
      ≤ 200000) :
    decryptModel (hexEncode iv ++ 58 :: hexEncode (authTagModel iv d) ++ 58 :: hexEncode d)
      = .ok d := by
  have htag : ∀ b ∈ authTagModel iv d, b < 256 := mem_authTagModel_lt256 iv d
  have hivne : iv ≠ [] := by intro h; rw [h] at hivlen; simp at hivlen
  have htagne : authTagModel iv d ≠ [] := by
    intro h
    have := authTagModel_length iv d
    rw [h] at this
    simp at this
  have hlenbody := encBody_length iv (authTagModel iv d) d
  rw [authTagModel_length] at hlenbody
  have hdlen : 1 ≤ d.length := by
    cases d with
    | nil => exact absurd rfl hdne
    | cons x xs => simp
  have hbodyne :
      hexEncode iv ++ 58 :: hexEncode (authTagModel iv d) ++ 58 :: hexEncode d ≠ [] := by
    intro h
    rw [h] at hlenbody
    simp at hlenbody
  -- the first hex digit of the IV is never the `C` marker
  have hhead : ((hexEncode iv ++ 58 :: hexEncode (authTagModel iv d) ++ 58 :: hexEncode d).head?
      == some 67) = false := by
    cases hiv0 : iv with
    | nil => exact absurd hiv0 hivne
    | cons i0 irest =>
      have hi0 : i0 < 256 := by
        have := hiv i0
        rw [hiv0] at this
        exact this (by simp)
      rw [hexEncode_cons]
      simp only [List.cons_append, List.head?_cons, beq_eq_false_iff_ne, ne_eq,
        Option.some.injEq]
      exact fun h => hexDigitChar_ne_C (by omega) h
  simp only [decryptModel]
  rw [if_neg (by simp [List.isEmpty_iff, hbodyne])]
  rw [if_neg (by omega)]
  rw [hhead]
  simp only [Bool.false_eq_true, if_false]
  rw [if_neg (by omega)]
  rw [splitColon_encBody hiv htag hd]
  rw [decryptTail_eq3]
  rw [if_pos (by
    rw [isHexString_hexEncode hivne hiv, isHexString_hexEncode htagne htag,
      isHexString_hexEncode hdne hd]
    rfl)]
  rw [hexDecode_hexEncode hiv, hexDecode_hexEncode htag, hexDecode_hexEncode hd]
  rw [if_neg (by rw [hivlen]; omega)]
  rw [if_neg (by rw [authTagModel_length]; omega)]
  rw [if_neg (by simpa [List.isEmpty_iff] using hexEncode_ne_nil hdne)]
  rw [if_neg (by simp)]
  simp only [Bool.false_eq_true, if_false]
  rfl

/-- Processing of a `C`-marked well-formed payload by `decrypt`: decrypt
succeeds and then applies `decodeAndDecompress`, keeping the raw payload
when decompression fails. -/
theorem decryptModel_bodyC {iv d : List Nat}
    (hivlen : iv.length = 16) (hiv : ∀ b ∈ iv, b < 256)
    (hd : ∀ b ∈ d, b < 256) (hdne : d ≠ [])
    (hfit : (67 :: (hexEncode iv ++ 58 :: hexEncode (authTagModel iv d) ++ 58 :: hexEncode d)).length
      ≤ 200000) :
    decryptModel (67 :: (hexEncode iv ++ 58 :: hexEncode (authTagModel iv d) ++ 58 :: hexEncode d))
      = (match decodeAndDecompress (aesGcmCipher d) with
        | .ok decompressed => .ok decompressed
        | .error _ => .ok (aesGcmCipher d)) := by
  have htag : ∀ b ∈ authTagModel iv d, b < 256 := mem_authTagModel_lt256 iv d
  have hivne : iv ≠ [] := by intro h; rw [h] at hivlen; simp at hivlen
  have htagne : authTagModel iv d ≠ [] := by
    intro h
    have := authTagModel_length iv d
    rw [h] at this
    simp at this
  have hlenbody := encBody_length iv (authTagModel iv d) d
  rw [authTagModel_length] at hlenbody
  have hdlen : 1 ≤ d.length := by
    cases d with
    | nil => exact absurd rfl hdne
    | cons x xs => simp
  replace hfit :
      (hexEncode iv ++ 58 :: hexEncode (authTagModel iv d) ++ 58 :: hexEncode d).length + 1
        ≤ 200000 := by simpa using hfit
  have hheadC :
      ((67 :: (hexEncode iv ++ 58 :: hexEncode (authTagModel iv d) ++ 58 :: hexEncode d)).head?
        == some 67) = true := by simp
  simp only [decryptModel]
  rw [if_neg (by simp)]
  rw [if_neg (by simp only [List.length_cons]; omega)]
  rw [hheadC]
  simp only [if_true, List.tail_cons]
  rw [if_neg (by omega)]
  rw [splitColon_encBody hiv htag hd]
  rw [decryptTail_eq3]
  rw [if_pos (by
    rw [isHexString_hexEncode hivne hiv, isHexString_hexEncode htagne htag,
      isHexString_hexEncode hdne hd]
    rfl)]
  rw [hexDecode_hexEncode hiv, hexDecode_hexEncode htag, hexDecode_hexEncode hd]
  rw [if_neg (by rw [hivlen]; omega)]
  rw [if_neg (by rw [authTagModel_length]; omega)]
  rw [if_neg (by simpa [List.isEmpty_iff] using hexEncode_ne_nil hdne)]
  rw [if_neg (by simp)]
  simp only [if_true]

/-- Success shape of `encrypt`: for a non-empty text within the size limit
it returns the assembled payload, `C`-marked exactly when the compression
path was taken. -/
theorem encryptModel_ok {iv : List Nat} {text : JStr} {u : Bool}
    (hlen : text.length ≤ 100000) (hne : text ≠ []) :
    encryptModel iv text u = .ok
      { encrypted :=
          (if u && decide (text.length > 100) then
            67 :: (hexEncode iv ++
              58 :: hexEncode (authTagModel iv (compressAndEncode text)) ++
              58 :: hexEncode (compressAndEncode text))
          else
            hexEncode iv ++ 58 :: hexEncode (authTagModel iv text) ++ 58 :: hexEncode text)
        hash := sha256Model text
        isCompressed := u && decide (text.length > 100) } := by
  by_cases hc : (u && decide (text.length > 100)) = true
  · have hdne : compressAndEncode text ≠ [] :=
      base64Encode_ne_nil (compressMessage_ne_nil hne)
    simp only [encryptModel, aesGcmCipher, hc, if_true,
      if_neg (show ¬text.length > 100000 by omega)]
    rw [if_neg (by simpa [List.isEmpty_iff] using hexEncode_ne_nil hdne)]
  · have hcf : (u && decide (text.length > 100)) = false := by
      revert hc
      cases u && decide (text.length > 100) <;> simp
    simp only [encryptModel, aesGcmCipher, hcf, Bool.false_eq_true, if_false,
      if_neg (show ¬text.length > 100000 by omega)]
    rw [if_neg (by simpa [List.isEmpty_iff] using hexEncode_ne_nil hne)]

/-- Codec round trip: whenever `encrypt` succeeds and its output fits the
200000-character decrypt limit, `decrypt` recovers the plaintext — provided
a plaintext long enough to take the failed-compression fallback path
(over 50000 bytes, stored base64-wrapped but `C`-marked) is not itself a
well-formed gzip stream. -/
theorem decryptModel_encryptModel {iv text : List Nat} {u : Bool} {e : EncryptResult}
    (hivlen : iv.length = 16) (hiv : ∀ b ∈ iv, b < 256)
    (htext : ∀ b ∈ text, b < 256) (hne : text ≠ [])
    (hlen : text.length ≤ 100000)
    (hgz : 50000 < text.length → gunzipModel text = none)
    (henc : encryptModel iv text u = .ok e)
    (hfit : e.encrypted.length ≤ 200000) :
    decryptModel e.encrypted = .ok text := by
  rw [encryptModel_ok hlen hne] at henc
  obtain rfl : e = _ := (Except.ok.inj henc).symm
  by_cases hc : (u && decide (text.length > 100)) = true
  · simp only [hc, if_true] at hfit ⊢
    have hdb : ∀ b ∈ compressAndEncode text, b < 256 :=
      mem_base64Encode_lt256 (mem_compressMessage_lt256 htext)
    have hdne : compressAndEncode text ≠ [] :=
      base64Encode_ne_nil (compressMessage_ne_nil hne)
    rw [decryptModel_bodyC hivlen hiv hdb hdne hfit]
    have hdd := decodeAndDecompress_compressAndEncode htext hne hlen hgz
    simp only [aesGcmCipher, hdd]
  · have hcf : (u && decide (text.length > 100)) = false := by
      revert hc
      cases u && decide (text.length > 100) <;> simp
    simp only [hcf, Bool.false_eq_true, if_false] at hfit ⊢
    exact decryptModel_body hivlen hiv htext hne hfit

theorem decryptModel_too_large {xs : JStr} (h : 200000 < xs.length) :
    decryptModel xs = .error "Encrypted data too large" := by
  unfold decryptModel
  rw [if_neg (by
    intro hemp
    rw [List.isEmpty_iff] at hemp
    rw [hemp] at h
    simp at h)]
  rw [if_pos (by omega)]

/-- The round-trip property of claim C1 at a fixed nonce: every successful
encryption of `text` decrypts back to `text`. -/
def codecRoundTripAt (iv text : List Nat) : Prop :=
  ∀ e, encryptModel iv text = .ok e → decryptModel e.encrypted = .ok text

theorem boundary_plaintext_fails_aux {P : List Nat} (hP : P.length = 100000) :
    ¬ codecRoundTripAt (List.replicate 16 0) P := by
  intro h
  have hne : P ≠ [] := by
    intro hemp
    rw [hemp] at hP
    simp at hP
  have hlen : P.length ≤ 100000 := by omega
  have henc := @encryptModel_ok (List.replicate 16 0) P true hlen hne
  have hdec := h _ henc
  have hgt : P.length > 100 := by omega
  have hcond : (true && decide (P.length > 100)) = true := by simp [hgt]
  simp only [hcond, eq_self_iff_true, if_true] at hdec
  have hdlen : (compressAndEncode P).length = 133336 := by
    unfold compressAndEncode compressMessage
    rw [if_pos (by omega)]
    rw [base64Encode_length, hP]
  have hblen := encBody_length (List.replicate 16 0)
    (authTagModel (List.replicate 16 0) (compressAndEncode P)) (compressAndEncode P)
  rw [authTagModel_length, hdlen] at hblen
  simp only [List.length_replicate] at hblen
  rw [decryptModel_too_large (by simp only [List.length_cons]; omega)] at hdec
  exact Except.noConfusion hdec

/-- C1 (counterexample): at the stated size boundary — a plaintext of
exactly 100000 characters — the round trip fails.  The text exceeds the
50000-character compression limit, so `compressMessage` falls back to the
raw bytes, which are base64-wrapped and still `C`-marked; the resulting
ciphertext is 266739 characters long and `decrypt` rejects anything over
200000 characters. -/
theorem C1_boundary_plaintext_fails :
    ¬ codecRoundTripAt (List.replicate 16 0) (List.replicate 100000 97) :=
  boundary_plaintext_fails_aux (List.length_replicate 100000 97)

/-- C1 (amended): for every non-empty plaintext of at most 100000 bytes,
if the ciphertext produced by `encrypt` is within the 200000-character
limit of `decrypt` — which fails exactly at the stated boundary — and a
plaintext long enough for the failed-compression fallback (over 50000
bytes) is not itself a well-formed gzip stream, then
`decrypt(encrypt(P).encrypted) = P`. -/
theorem C1_codec_round_trip (iv text : List Nat)
    (hivlen : iv.length = 16) (hiv : ∀ b ∈ iv, b < 256)
    (htext : ∀ b ∈ text, b < 256) (hne : text ≠ [])
    (hlen : text.length ≤ 100000)
    (hgz : 50000 < text.length → gunzipModel text = none) :
    ∀ e, encryptModel iv text = .ok e → e.encrypted.length ≤ 200000 →
      decryptModel e.encrypted = .ok text :=
  fun _ henc hfit => decryptModel_encryptModel hivlen hiv htext hne hlen hgz henc hfit

/-- C1 witness: the amended round trip evaluated at the concrete
plaintext "hi". -/
theorem C1_codec_round_trip_witness :
    ∃ e, encryptModel (List.replicate 16 0) [104, 105] = .ok e ∧
      decryptModel e.encrypted = .ok [104, 105] := by
  refine ⟨_, rfl, ?_⟩
  exact C1_codec_round_trip (List.replicate 16 0) [104, 105]
    (by decide) (by decide) (by decide) (by decide) (by decide)
    (by intro hcontra; exact absurd hcontra (by decide))
    _ rfl (by decide)

/-! ### Claim C6: decompression failure of `C`-marked data -/

/-- C6 (counterexample): a `C`-marked, correctly authenticated payload
whose decrypted bytes `"***"` fail `decodeAndDecompress` is returned as
the plaintext by `decrypt` instead of surfacing an error. -/
theorem C6_decompression_failure_not_an_error :
    decodeAndDecompress [42, 42, 42] = .error "Invalid base64 format" ∧
      decryptModel (67 :: (hexEncode (List.replicate 16 0) ++
        58 :: hexEncode (authTagModel (List.replicate 16 0) [42, 42, 42]) ++
        58 :: hexEncode [42, 42, 42])) = .ok [42, 42, 42] := by
  constructor
  · rfl
  · rfl

/-- C6 (amended): for every well-formed `C`-marked input whose
authenticated payload fails `decodeAndDecompress`, `decrypt` returns the
decrypted-but-undecompressed payload as-is (the backward-compatibility
fallback), not an error. -/
theorem C6_decompression_failure_returns_payload (iv d : List Nat)
    (hivlen : iv.length = 16) (hiv : ∀ b ∈ iv, b < 256)
    (hd : ∀ b ∈ d, b < 256) (hdne : d ≠ [])
    (hfit : (67 :: (hexEncode iv ++ 58 :: hexEncode (authTagModel iv d) ++
      58 :: hexEncode d)).length ≤ 200000)
    (hfail : ∃ msg, decodeAndDecompress d = .error msg) :
    decryptModel (67 :: (hexEncode iv ++ 58 :: hexEncode (authTagModel iv d) ++
      58 :: hexEncode d)) = .ok d := by
  rw [decryptModel_bodyC hivlen hiv hd hdne hfit]
  obtain ⟨msg, hmsg⟩ := hfail
  simp only [aesGcmCipher] at hmsg ⊢
  rw [hmsg]

/-- C6 witness: the amended fallback behaviour evaluated at the concrete
payload `"***"`. -/
theorem C6_decompression_failure_returns_payload_witness :
    decryptModel (67 :: (hexEncode (List.replicate 16 0) ++
      58 :: hexEncode (authTagModel (List.replicate 16 0) [42, 43, 42]) ++
      58 :: hexEncode [42, 43, 42])) = .ok [42, 43, 42] :=
  C6_decompression_failure_returns_payload (List.replicate 16 0) [42, 43, 42]
    (by decide) (by decide) (by decide) (by decide) (by decide)
    ⟨"Invalid base64 format", rfl⟩

/-! ### chatValidation.js: sanitizeMessageContent -/

/-- The whitespace class removed by JavaScript `String.prototype.trim`. -/
def isJsWhitespace (c : Nat) : Bool :=
  c == 9 || c == 10 || c == 11 || c == 12 || c == 13 || c == 32 || c == 160 ||
    (decide (8192 ≤ c) && decide (c ≤ 8202)) || c == 8232 || c == 8233 ||
    c == 8239 || c == 8287 || c == 12288 || c == 65279

/-- `content.trim()`. -/
def jsTrim (xs : JStr) : JStr :=
  ((xs.dropWhile isJsWhitespace).reverse.dropWhile isJsWhitespace).reverse

/-- The control-character class of the sanitizer's strip regex
(`\x00`-`\x08`, `\x0B`, `\x0C`, `\x0E`-`\x1F`, `\x7F` — newline, tab and
carriage return excluded). -/
def isStrippedControl (c : Nat) : Bool :=
  decide (c ≤ 8) || c == 11 || c == 12 || (decide (14 ≤ c) && decide (c ≤ 31)) || c == 127

/-- The strip-control-characters replace. -/
def stripControl (xs : JStr) : JStr := xs.filter fun c => !isStrippedControl c

/-- The global replace of `\r\n` by `\n` (left-to-right, non-overlapping). -/
def replaceCRLF : List Nat → List Nat
  | [] => []
  | [c] => [c]
  | c :: c2 :: rest =>
    if c = 13 ∧ c2 = 10 then 10 :: replaceCRLF rest
    else c :: replaceCRLF (c2 :: rest)

/-- The global replace of `\r` by `\n`. -/
def replaceCR (xs : List Nat) : List Nat := xs.map fun c => if c = 13 then 10 else c

/-- The global replace of four-or-more consecutive `\n` by exactly three:
each maximal newline run of length `k` becomes length `min k 3`. -/
def collapseNewlines : List Nat → List Nat
  | [] => []
  | c :: rest =>
    if c = 10 then
      List.replicate (min ((rest.takeWhile (· == 10)).length + 1) 3) 10 ++
        collapseNewlines (rest.dropWhile (· == 10))
    else c :: collapseNewlines rest
termination_by xs => xs.length
decreasing_by
  · simp only [List.length_cons]
    have := (List.dropWhile_sublist (l := rest) (fun c => c == 10)).length_le
    omega
  · simp

/-- `sanitizeMessageContent` (chatValidation.js lines 115-133): trim, strip
control characters, normalize line endings, collapse newline runs. -/
def sanitizeMessageContent (content : JStr) : JStr :=
  collapseNewlines (replaceCR (replaceCRLF (stripControl (jsTrim content))))

/-! ### Sanitizer lemmas -/

theorem mem_replaceCRLF : ∀ {xs : List Nat}, ∀ c ∈ replaceCRLF xs, c ∈ xs
  | [], c, hc => by simp [replaceCRLF] at hc
  | [a], c, hc => by simpa [replaceCRLF] using hc
  | a :: b :: rest, c, hc => by
    simp only [replaceCRLF] at hc
    split_ifs at hc with hab
    · simp only [List.mem_cons] at hc
      rcases hc with rfl | hc
      · simp [hab.2]
      · have := mem_replaceCRLF c hc
        simp [this]
    · simp only [List.mem_cons] at hc
      rcases hc with rfl | hc
      · simp
      · have := mem_replaceCRLF c hc
        simp only [List.mem_cons] at this ⊢
        tauto

theorem mem_replaceCR {xs : List Nat} : ∀ c ∈ replaceCR xs, c = 10 ∨ c ∈ xs := by
  intro c hc
  simp only [replaceCR, List.mem_map] at hc
  obtain ⟨a, ha, heq⟩ := hc
  by_cases h13 : a = 13
  · rw [h13] at heq
    simp at heq
    exact Or.inl heq.symm
  · rw [if_neg h13] at heq
    exact Or.inr (heq ▸ ha)

theorem ne13_replaceCR {xs : List Nat} : ∀ c ∈ replaceCR xs, c ≠ 13 := by
  intro c hc
  simp only [replaceCR, List.mem_map] at hc
  obtain ⟨a, ha, heq⟩ := hc
  by_cases h13 : a = 13
  · rw [h13] at heq; simp at heq; omega
  · rw [if_neg h13] at heq; omega

theorem mem_collapseNewlines : ∀ {xs : List Nat}, ∀ c ∈ collapseNewlines xs, c ∈ xs
  | [], c, hc => by simp [collapseNewlines] at hc
  | a :: rest, c, hc => by
    rw [collapseNewlines] at hc
    split_ifs at hc with ha
    · simp only [List.mem_append, List.mem_replicate] at hc
      rcases hc with ⟨-, rfl⟩ | hc
      · simp [ha]
      · have := mem_collapseNewlines c hc
        have hsub := (List.dropWhile_sublist (l := rest) (fun c => c == 10)).subset
        exact List.mem_cons_of_mem a (hsub this)
    · simp only [List.mem_cons] at hc
      rcases hc with rfl | hc
      · simp
      · exact List.mem_cons_of_mem a (mem_collapseNewlines c hc)
termination_by xs => xs.length
decreasing_by
  · simp only [List.length_cons]
    have := (List.dropWhile_sublist (l := rest) (fun c => c == 10)).length_le
    omega
  · simp

theorem replaceCRLF_of_ne13 : ∀ {xs : List Nat}, (∀ c ∈ xs, c ≠ 13) → replaceCRLF xs = xs
  | [], _ => rfl
  | [a], _ => rfl
  | a :: b :: rest, h => by
    have ha : a ≠ 13 := h a (by simp)
    rw [replaceCRLF, if_neg (by tauto)]
    rw [replaceCRLF_of_ne13 fun c hc => h c (List.mem_cons_of_mem a hc)]

theorem replaceCR_of_ne13 {xs : List Nat} (h : ∀ c ∈ xs, c ≠ 13) : replaceCR xs = xs := by
  unfold replaceCR
  induction xs with
  | nil => rfl
  | cons a rest ih =>
    simp only [List.map_cons]
    rw [if_neg (h a (by simp)), ih fun c hc => h c (by simp [hc])]

theorem stripControl_of_clean {xs : List Nat}
    (h : ∀ c ∈ xs, isStrippedControl c = false) : stripControl xs = xs := by
  unfold stripControl
  rw [List.filter_eq_self]
  intro c hc
  rw [h c hc]
  rfl

theorem head?_dropWhile_ne_10 (l : List Nat) :
    (l.dropWhile (· == 10)).head? ≠ some 10 := by
  induction l with
  | nil => simp
  | cons c rest ih =>
    rw [List.dropWhile_cons]
    by_cases hc : (c == 10) = true
    · rw [if_pos hc]
      exact ih
    · rw [if_neg hc]
      simp only [List.head?_cons, ne_eq, Option.some.injEq]
      intro h10
      exact hc (by simp [h10])

theorem collapseNewlines_head? {zs : List Nat} (h : zs.head? ≠ some 10) :
    (collapseNewlines zs).head? = zs.head? := by
  cases zs with
  | nil => simp [collapseNewlines]
  | cons c rest =>
    have hc : c ≠ 10 := by
      intro h10
      exact h (by simp [h10])
    rw [collapseNewlines, if_neg hc]
    simp

theorem takeWhile10_eq_replicate (rest : List Nat) :
    rest.takeWhile (· == 10) =
      List.replicate (rest.takeWhile (· == 10)).length 10 := by
  rw [List.eq_replicate_length]
  intro b hb
  have := List.mem_takeWhile_imp hb
  simpa using this

theorem noQuad_replicate_append {m : Nat} {ys : List Nat} (hm : m ≤ 3)
    (hys : ys.head? ≠ some 10) (h : ¬([10, 10, 10, 10] <:+: ys)) :
    ¬([10, 10, 10, 10] <:+: List.replicate m 10 ++ ys) := by
  have hpre10 : ∀ l : List Nat, ¬((10 :: l) <+: ys) := by
    intro l hp
    obtain ⟨t, ht⟩ := hp
    rw [← ht] at hys
    simp at hys
  interval_cases m
  · simpa using h
  · simp only [List.replicate_succ, List.replicate_zero, List.cons_append, List.nil_append]
    intro hq
    rcases List.infix_cons_iff.mp hq with hp | hi
    · rcases List.cons_prefix_cons.mp hp with ⟨-, hp⟩
      exact hpre10 _ hp
    · exact h hi
  · simp only [List.replicate_succ, List.replicate_zero, List.cons_append, List.nil_append]
    intro hq
    rcases List.infix_cons_iff.mp hq with hp | hi
    · rcases List.cons_prefix_cons.mp hp with ⟨-, hp⟩
      rcases List.cons_prefix_cons.mp hp with ⟨-, hp⟩
      exact hpre10 _ hp
    rcases List.infix_cons_iff.mp hi with hp | hi
    · rcases List.cons_prefix_cons.mp hp with ⟨-, hp⟩
      exact hpre10 _ hp
    · exact h hi
  · simp only [List.replicate_succ, List.replicate_zero, List.cons_append, List.nil_append]
    intro hq
    rcases List.infix_cons_iff.mp hq with hp | hi
    · rcases List.cons_prefix_cons.mp hp with ⟨-, hp⟩
      rcases List.cons_prefix_cons.mp hp with ⟨-, hp⟩
      rcases List.cons_prefix_cons.mp hp with ⟨-, hp⟩
      exact hpre10 _ hp
    rcases List.infix_cons_iff.mp hi with hp | hi
    · rcases List.cons_prefix_cons.mp hp with ⟨-, hp⟩
      rcases List.cons_prefix_cons.mp hp with ⟨-, hp⟩
      exact hpre10 _ hp
    rcases List.infix_cons_iff.mp hi with hp | hi
    · rcases List.cons_prefix_cons.mp hp with ⟨-, hp⟩
      exact hpre10 _ hp
    · exact h hi

theorem collapseNewlines_of_noQuad : ∀ xs : List Nat,
    ¬([10, 10, 10, 10] <:+: xs) → collapseNewlines xs = xs
  | [], _ => by simp [collapseNewlines]
  | c :: rest, h => by
    by_cases hc : c = 10
    · subst hc
      have htw := takeWhile10_eq_replicate rest
      have hsplit := List.takeWhile_append_dropWhile (p := (· == 10)) (l := rest)
      have hk : (rest.takeWhile (· == 10)).length + 1 ≤ 3 := by
        by_contra hk'
        apply h
        refine ⟨[], List.replicate ((rest.takeWhile (· == 10)).length - 3) 10 ++
          rest.dropWhile (· == 10), ?_⟩
        rw [List.nil_append]
        have h3 : (rest.takeWhile (· == 10)).length =
            3 + ((rest.takeWhile (· == 10)).length - 3) := by omega
        refine Eq.symm ?_
        calc 10 :: rest
            = 10 :: (rest.takeWhile (· == 10) ++ rest.dropWhile (· == 10)) := by rw [hsplit]
          _ = 10 :: (List.replicate (3 + ((rest.takeWhile (· == 10)).length - 3)) 10 ++
                rest.dropWhile (· == 10)) := by rw [← h3, ← htw]
          _ = [10, 10, 10, 10] ++
                (List.replicate ((rest.takeWhile (· == 10)).length - 3) 10 ++
                  rest.dropWhile (· == 10)) := by
              rw [List.replicate_add]
              simp [List.replicate_succ]
      have hih := collapseNewlines_of_noQuad (rest.dropWhile (· == 10))
        (fun hq => h (hq.trans ((List.dropWhile_suffix _).isInfix.trans
          (List.infix_cons (List.infix_refl rest)))))
      rw [collapseNewlines, if_pos rfl, hih, min_eq_left hk]
      calc List.replicate ((rest.takeWhile (· == 10)).length + 1) 10 ++
              rest.dropWhile (· == 10)
          = 10 :: (List.replicate ((rest.takeWhile (· == 10)).length) 10 ++
              rest.dropWhile (· == 10)) := by simp [List.replicate_succ]
        _ = 10 :: (rest.takeWhile (· == 10) ++ rest.dropWhile (· == 10)) := by rw [← htw]
        _ = 10 :: rest := by rw [hsplit]
    · rw [collapseNewlines, if_neg hc]
      rw [collapseNewlines_of_noQuad rest
        (fun hq => h (hq.trans (List.infix_cons (List.infix_refl rest))))]
termination_by xs => xs.length
decreasing_by
  · simp only [List.length_cons]
    have := (List.dropWhile_sublist (l := rest) (fun c => c == 10)).length_le
    omega
  · simp

theorem noQuad_collapseNewlines : ∀ xs : List Nat,
    ¬([10, 10, 10, 10] <:+: collapseNewlines xs)
  | [] => by simp [collapseNewlines]
  | c :: rest => by
    by_cases hc : c = 10
    · subst hc
      rw [collapseNewlines, if_pos rfl]
      have ih := noQuad_collapseNewlines (rest.dropWhile (· == 10))
      have hh : (collapseNewlines (rest.dropWhile (· == 10))).head? ≠ some 10 := by
        rw [collapseNewlines_head? (head?_dropWhile_ne_10 rest)]
        exact head?_dropWhile_ne_10 rest
      exact noQuad_replicate_append (min_le_right _ _) hh ih
    · rw [collapseNewlines, if_neg hc]
      intro hq
      rcases List.infix_cons_iff.mp hq with hp | hi
      · rcases List.cons_prefix_cons.mp hp with ⟨h10, -⟩
        exact hc h10.symm
      · exact noQuad_collapseNewlines rest hi
termination_by xs => xs.length
decreasing_by
  · simp only [List.length_cons]
    have := (List.dropWhile_sublist (l := rest) (fun c => c == 10)).length_le
    omega
  · simp

theorem jsTrim_within (xs : JStr) : jsTrim xs <:+: xs := by
  unfold jsTrim
  have h1 : xs.dropWhile isJsWhitespace <:+ xs := List.dropWhile_suffix _
  have h2 : (xs.dropWhile isJsWhitespace).reverse.dropWhile isJsWhitespace <:+
      (xs.dropWhile isJsWhitespace).reverse := List.dropWhile_suffix _
  have h3 : ((xs.dropWhile isJsWhitespace).reverse.dropWhile isJsWhitespace).reverse <+:
      xs.dropWhile isJsWhitespace := by
    rw [← List.reverse_suffix]
    simpa using h2
  exact h3.isInfix.trans h1.isInfix

/-! ### Claim C10: sanitizer idempotence -/

/-- C10 (counterexample): sanitization is not idempotent.  For the input
`"a \x01"` the first pass trims nothing (the string ends in a control
character, not whitespace) and then strips the control character, exposing
a trailing space; the second pass removes that space. -/
theorem C10_sanitize_not_idempotent :
    sanitizeMessageContent (sanitizeMessageContent [97, 32, 1]) ≠
      sanitizeMessageContent [97, 32, 1] := by
  have h1 : sanitizeMessageContent [97, 32, 1] = [97, 32] := by
    simp [sanitizeMessageContent, jsTrim, stripControl, isJsWhitespace,
      isStrippedControl, replaceCRLF, replaceCR, collapseNewlines]
  have h2 : sanitizeMessageContent [97, 32] = [97] := by
    simp [sanitizeMessageContent, jsTrim, stripControl, isJsWhitespace,
      isStrippedControl, replaceCRLF, replaceCR, collapseNewlines]
  rw [h1, h2]
  simp

/-- C10 (amended): a second sanitization pass is exactly a trim of the
first pass's output — the output already has no control characters other
than newline and tab, no carriage returns, and no run of more than three
consecutive newlines, but control-character stripping (which runs after
the trim) can expose leading or trailing whitespace that only the second
pass's trim removes. -/
theorem C10_sanitize_second_pass_is_trim (s : JStr) :
    sanitizeMessageContent (sanitizeMessageContent s) =
      jsTrim (sanitizeMessageContent s) := by
  have h13 : ∀ c ∈ sanitizeMessageContent s, c ≠ 13 := by
    intro c hc
    unfold sanitizeMessageContent at hc
    exact ne13_replaceCR c (mem_collapseNewlines c hc)
  have hctl : ∀ c ∈ sanitizeMessageContent s, isStrippedControl c = false := by
    intro c hc
    unfold sanitizeMessageContent at hc
    have h1 := mem_collapseNewlines c hc
    rcases mem_replaceCR c h1 with rfl | h2
    · rfl
    · have h3 := mem_replaceCRLF c h2
      unfold stripControl at h3
      have h4 := List.of_mem_filter h3
      simpa using h4
  have hq : ¬([10, 10, 10, 10] <:+: sanitizeMessageContent s) := by
    unfold sanitizeMessageContent
    exact noQuad_collapseNewlines _
  have hinf := jsTrim_within (sanitizeMessageContent s)
  have hsub := hinf.subset
  conv_lhs => rw [sanitizeMessageContent]
  rw [stripControl_of_clean fun c hc => hctl c (hsub hc)]
  rw [replaceCRLF_of_ne13 fun c hc => h13 c (hsub hc)]
  rw [replaceCR_of_ne13 fun c hc => h13 c (hsub hc)]
  rw [collapseNewlines_of_noQuad _ fun hq' => hq (hq'.trans hinf)]

/-! ### Conversation / message store and the SQL triggers (chat schema) -/

/-- `sender_role`, constrained by the schema to customer or vendor. -/
inductive Role
  | customer
  | vendor
  deriving Repr, DecidableEq

/-- The opposite participant role. -/
def Role.other : Role → Role
  | .customer => .vendor
  | .vendor => .customer

/-- A row of the `messages` table (fields the claims depend on). -/
structure MsgRow where
  mid : String
  senderId : String
  senderRole : Role
  isRead : Bool
  readAt : Option Nat
  createdAt : Nat
  deriving Repr, DecidableEq

/-- A conversation row (`customer_unread_count`, `vendor_unread_count`,
`last_message_at`, `updated_at` are SQL `INTEGER`/timestamp columns)
together with the conversation's messages. -/
structure ConvState where
  customerUnread : Int
  vendorUnread : Int
  lastMessageAt : Option Nat
  updatedAt : Nat
  msgs : List MsgRow
  deriving Repr, DecidableEq

/-- The empty conversation as created by the schema defaults. -/
def initConv : ConvState :=
  { customerUnread := 0, vendorUnread := 0, lastMessageAt := none, updatedAt := 0, msgs := [] }

/-- Insert of a message row plus the `update_conversation_on_message`
trigger (part_009 lines 44-71): `updated_at = NOW()`,
`last_message_at = NEW.created_at`, and the counterpart's unread counter
increments when the new row is unread. -/
def insertMessage (now : Nat) (c : ConvState) (NEW : MsgRow) : ConvState :=
  { customerUnread :=
      if NEW.senderRole = .vendor ∧ NEW.isRead = false then c.customerUnread + 1
      else c.customerUnread
    vendorUnread :=
      if NEW.senderRole = .customer ∧ NEW.isRead = false then c.vendorUnread + 1
      else c.vendorUnread
    lastMessageAt := some NEW.createdAt
    updatedAt := now
    msgs := c.msgs ++ [NEW] }

/-- `UPDATE messages SET is_read = true, read_at = now` applied to the row
at index `i`, plus the `update_unread_counts_on_read` trigger
(part_009 lines 74-102): fires only when `is_read` actually changes, and
decrements the counterpart's counter with a `GREATEST(0, _)` floor. -/
def markReadOp (now : Nat) (c : ConvState) (i : Nat) : ConvState :=
  match c.msgs[i]? with
  | none => c
  | some m =>
    let base := { c with msgs := c.msgs.set i { m with isRead := true, readAt := some now } }
    if m.isRead = false then
      { base with
        customerUnread :=
          if m.senderRole = .vendor then max 0 (base.customerUnread - 1)
          else base.customerUnread
        vendorUnread :=
          if m.senderRole = .customer then max 0 (base.vendorUnread - 1)
          else base.vendorUnread }
    else base

/-- The operations the application performs on a conversation: inserting a
message (always created with the schema default `is_read = false`) and the
read transition on one message. -/
inductive ChatOp
  | send (mid senderId : String) (role : Role) (createdAt now : Nat)
  | markRead (i : Nat) (now : Nat)

/-- Apply one operation. -/
def applyOp (c : ConvState) : ChatOp → ConvState
  | .send mid sid role t now =>
    insertMessage now c
      { mid := mid, senderId := sid, senderRole := role, isRead := false,
        readAt := none, createdAt := t }
  | .markRead i now => markReadOp now c i

/-- Run a sequence of operations from the freshly created conversation. -/
def runOps (ops : List ChatOp) : ConvState := ops.foldl applyOp initConv

/-- Number of unread messages authored by role `r`. -/
def unreadFrom (r : Role) (msgs : List MsgRow) : Nat :=
  msgs.countP fun m => decide (m.senderRole = r) && !m.isRead

/-- The counter invariant of claim C2. -/
def countersOk (c : ConvState) : Prop :=
  c.customerUnread = (unreadFrom .vendor c.msgs : Int) ∧
    c.vendorUnread = (unreadFrom .customer c.msgs : Int)

theorem countP_set {p : MsgRow → Bool} {l : List MsgRow} {i : Nat} {b : MsgRow}
    (h : l[i]? = some b) (a : MsgRow) :
    (l.set i a).countP p + (if p b then 1 else 0) =
      l.countP p + (if p a then 1 else 0) := by
  induction l generalizing i with
  | nil => simp at h
  | cons x xs ih =>
    cases i with
    | zero =>
      simp only [List.getElem?_cons_zero, Option.some.injEq] at h
      subst h
      simp only [List.set_cons_zero, List.countP_cons]
      omega
    | succ j =>
      simp only [List.getElem?_cons_succ] at h
      simp only [List.set_cons_succ, List.countP_cons]
      have := ih h
      omega

theorem countersOk_insertMessage {c : ConvState} (hc : countersOk c)
    (now : Nat) (NEW : MsgRow) : countersOk (insertMessage now c NEW) := by
  obtain ⟨h1, h2⟩ := hc
  unfold unreadFrom at h1 h2
  unfold countersOk insertMessage unreadFrom
  simp only [List.countP_append, List.countP_cons, List.countP_nil]
  constructor
  · rcases hr : NEW.senderRole with _ | _ <;>
      rcases hread : NEW.isRead with _ | _ <;>
        simp_all <;> push_cast <;> omega
  · rcases hr : NEW.senderRole with _ | _ <;>
      rcases hread : NEW.isRead with _ | _ <;>
        simp_all <;> push_cast <;> omega

theorem markReadOp_eq_none {c : ConvState} {i now : Nat} (h : c.msgs[i]? = none) :
    markReadOp now c i = c := by
  unfold markReadOp
  rw [h]

theorem markReadOp_eq_unread {c : ConvState} {i now : Nat} {m : MsgRow}
    (h : c.msgs[i]? = some m) (hread : m.isRead = false) :
    markReadOp now c i =
      { c with
        msgs := c.msgs.set i { m with isRead := true, readAt := some now }
        customerUnread :=
          if m.senderRole = .vendor then max 0 (c.customerUnread - 1) else c.customerUnread
        vendorUnread :=
          if m.senderRole = .customer then max 0 (c.vendorUnread - 1) else c.vendorUnread } := by
  unfold markReadOp
  rw [h]
  simp [hread]

theorem markReadOp_eq_read {c : ConvState} {i now : Nat} {m : MsgRow}
    (h : c.msgs[i]? = some m) (hread : m.isRead = true) :
    markReadOp now c i =
      { c with msgs := c.msgs.set i { m with isRead := true, readAt := some now } } := by
  unfold markReadOp
  rw [h]
  simp [hread]

theorem countersOk_markReadOp {c : ConvState} (hc : countersOk c)
    (now : Nat) (i : Nat) : countersOk (markReadOp now c i) := by
  obtain ⟨h1, h2⟩ := hc
  cases hm : c.msgs[i]? with
  | none => rw [markReadOp_eq_none hm]; exact ⟨h1, h2⟩
  | some m =>
    have hcount1 := countP_set (p := fun m => decide (m.senderRole = .vendor) && !m.isRead)
      hm { m with isRead := true, readAt := some now }
    have hcount2 := countP_set (p := fun m => decide (m.senderRole = .customer) && !m.isRead)
      hm { m with isRead := true, readAt := some now }
    unfold unreadFrom at h1 h2
    cases hread : m.isRead with
    | false =>
      rw [markReadOp_eq_unread hm hread]
      unfold countersOk unreadFrom
      rcases hrole : m.senderRole with _ | _ <;>
        simp_all <;> push_cast at h1 h2 ⊢ <;> omega
    | true =>
      rw [markReadOp_eq_read hm hread]
      unfold countersOk unreadFrom
      simp_all

/-- C2: for every conversation reachable by message inserts and read
transitions, `customer_unread_count` equals the number of unread
vendor-authored messages, `vendor_unread_count` equals the number of
unread customer-authored messages, and both counters are non-negative. -/
theorem C2_unread_counter_invariant (ops : List ChatOp) :
    (runOps ops).customerUnread = (unreadFrom .vendor (runOps ops).msgs : Int) ∧
      (runOps ops).vendorUnread = (unreadFrom .customer (runOps ops).msgs : Int) ∧
      0 ≤ (runOps ops).customerUnread ∧ 0 ≤ (runOps ops).vendorUnread := by
  have main : countersOk (runOps ops) := by
    unfold runOps
    have hinit : countersOk initConv := ⟨rfl, rfl⟩
    generalize initConv = c0 at hinit ⊢
    induction ops generalizing c0 with
    | nil => exact hinit
    | cons op rest ih =>
      rw [List.foldl_cons]
      apply ih
      cases op with
      | send mid sid role t now => exact countersOk_insertMessage hinit now _
      | markRead i now => exact countersOk_markReadOp hinit now i
  obtain ⟨h1, h2⟩ := main
  exact ⟨h1, h2, by rw [h1]; positivity, by rw [h2]; positivity⟩

/-! ### Identifier validation (chatValidation.js) and the access checks -/

/-- One hex digit of a uuid. -/
def isUuidHexDigit (c : Char) : Bool :=
  (decide ('0' ≤ c) && decide (c ≤ '9')) || (decide ('a' ≤ c) && decide (c ≤ 'f')) ||
    (decide ('A' ≤ c) && decide (c ≤ 'F'))

/-- Model of `uuid.validate`: 8-4-4-4-12 hex groups with dashes, an RFC
version nibble 1-5 and variant nibble 8/9/a/b. -/
def isValidUUIDFormat (s : String) : Bool :=
  s.toList.length == 36 &&
    (List.range 36).all fun i =>
      let c := s.toList.getD i ' '
      if i = 8 ∨ i = 13 ∨ i = 18 ∨ i = 23 then c == '-'
      else if i = 14 then decide ('1' ≤ c) && decide (c ≤ '5')
      else if i = 19 then c == '8' || c == '9' || c == 'a' || c == 'b' || c == 'A' || c == 'B'
      else isUuidHexDigit c

/-- `validateConversationId`: a syntactically valid uuid. -/
def validConversationId (conversationId : String) : Bool :=
  isValidUUIDFormat conversationId

/-- `validateMessageId`: a uuid, or a client temp id. -/
def validMessageId (messageId : String) : Bool :=
  isValidUUIDFormat messageId || messageId.startsWith "temp-"

/-- `validateMessageContent`: non-empty and at most 5000 characters after
trimming (the 10000-character ceiling is subsumed). -/
def validMessageContent (content : JStr) : Bool :=
  !(jsTrim content).isEmpty && decide ((jsTrim content).length ≤ 5000)

/-- `isValidRole`. -/
def isValidRole (role : String) : Bool := role == "customer" || role == "vendor"

/-- A conversation row as seen by the access checks. -/
structure ConvRow where
  customer_id : String
  vendor_id : String
  deriving Repr, DecidableEq

/-- The per-conversation security check of the real-time path (socket.js
lines 173-182, 294-303, 453-455): deny a customer whose id differs from
`customer_id`, deny a vendor whose id differs from `vendor_id`, allow
everything else. -/
def socketConversationCheck (role userId : String) (conversation : ConvRow) : Bool :=
  if role = "customer" ∧ conversation.customer_id ≠ userId then false
  else if role = "vendor" ∧ conversation.vendor_id ≠ userId then false
  else true

/-- The synchronous path's access decision (chat.js): the route first
rejects any role that is not customer/vendor (`isValidRole`, 400), then
applies the same two participant checks (403). -/
def restConversationAccess (role userId : String) (conversation : ConvRow) : Bool :=
  isValidRole role && socketConversationCheck role userId conversation

/-- C4 (counterexample): on the real-time path an `admin` role passes the
conversation security check of a conversation it does not belong to, so
"no other role is ever authorized" fails there. -/
theorem C4_admin_passes_socket_check :
    socketConversationCheck "admin" "u1" { customer_id := "c1", vendor_id := "v1" } = true ∧
      ¬(("admin" = "customer" ∧ "c1" = "u1") ∨ ("admin" = "vendor" ∧ "v1" = "u1")) := by
  constructor
  · rfl
  · decide

/-- C4 (amended): on the synchronous path access is granted iff the caller
is the conversation's customer (as a customer) or its vendor (as a
vendor); on the real-time path the check only denies a mismatched customer
or vendor, so any other role is allowed through. -/
theorem C4_conversation_authorization :
    (∀ role userId conversation, restConversationAccess role userId conversation = true ↔
      ((role = "customer" ∧ conversation.customer_id = userId) ∨
        (role = "vendor" ∧ conversation.vendor_id = userId))) ∧
    (∀ role userId conversation, role ≠ "customer" → role ≠ "vendor" →
      socketConversationCheck role userId conversation = true) := by
  constructor
  · intro role userId conversation
    unfold restConversationAccess socketConversationCheck isValidRole
    constructor
    · intro h
      simp only [Bool.and_eq_true, Bool.or_eq_true, beq_iff_eq] at h
      obtain ⟨hrole, hcheck⟩ := h
      split_ifs at hcheck with h1 h2
      · rcases hrole with rfl | rfl
        · left
          refine ⟨rfl, ?_⟩
          by_contra hne
          exact absurd ⟨rfl, hne⟩ h1
        · right
          refine ⟨rfl, ?_⟩
          by_contra hne
          exact absurd ⟨rfl, hne⟩ h2
    · intro h
      simp only [Bool.and_eq_true, Bool.or_eq_true, beq_iff_eq]
      rcases h with ⟨rfl, heq⟩ | ⟨rfl, heq⟩
      · exact ⟨Or.inl rfl, by rw [if_neg (by simp [heq]), if_neg (by simp)]⟩
      · exact ⟨Or.inr rfl, by rw [if_neg (by simp), if_neg (by simp [heq])]⟩
  · intro role userId conversation hc hv
    unfold socketConversationCheck
    rw [if_neg (by simp [hc]), if_neg (by simp [hv])]

/-- C4 witness: the amended real-time statement evaluated for an `admin`
caller. -/
theorem C4_conversation_authorization_witness :
    socketConversationCheck "admin" "u1" { customer_id := "c1", vendor_id := "v1" } = true :=
  C4_conversation_authorization.2 "admin" "u1" _ (by decide) (by decide)

/-! ### Rate limiter and the real-time send_message handler (socket.js) -/

/-- An entry of the `messageRateLimit` map. -/
structure RateEntry where
  count : Nat
  resetTime : Nat
  deriving Repr, DecidableEq

/-- Result of `checkRateLimit`. -/
structure RateResult where
  allowed : Bool
  state : Option RateEntry
  resetTime : Option Nat
  deriving Repr, DecidableEq

/-- `checkRateLimit(userId)` (socket.js lines 25-41), acting on the
caller's current map entry: reset or initialize an absent/expired window
with count 1; reject at the 30-message cap, reporting the reset time;
otherwise increment. -/
def checkRateLimit (now : Nat) : Option RateEntry → RateResult
  | none => { allowed := true, state := some { count := 1, resetTime := now + 60000 }, resetTime := none }
  | some userLimit =>
    if now > userLimit.resetTime then
      { allowed := true, state := some { count := 1, resetTime := now + 60000 }, resetTime := none }
    else if userLimit.count ≥ 30 then
      { allowed := false, state := some userLimit, resetTime := some userLimit.resetTime }
    else
      { allowed := true
        state := some { count := userLimit.count + 1, resetTime := userLimit.resetTime }
        resetTime := none }

/-- Errors the send handlers can emit. -/
inductive SendError
  | invalidConvId
  | invalidContent
  | invalidCredentials
  | rateLimited (waitTime : Nat)
  | convNotFound
  | accessDenied
  | encryptionFailed
  deriving Repr, DecidableEq

/-- A persisted row of `messages` as inserted by the send handlers. -/
structure StoredMessage where
  conversation_id : String
  sender_id : String
  sender_role : String
  encrypted_content : JStr
  content_hash : JStr
  is_compressed : Bool
  deriving Repr, DecidableEq

/-- Observable outcome of one send_message request: the error (if any),
the caller's rate-limit entry afterwards, the persisted row, and the
`content` field of the `new_message` fan-out event. -/
structure SendOutcome where
  error : Option SendError
  rate : Option RateEntry
  stored : Option StoredMessage
  emittedContent : Option JStr
  deriving Repr, DecidableEq

/-- Tail of the real-time send handler after sanitization: encrypt (the
outcome of `encrypt` is the last argument), persist, and fan out the
`new_message` event whose `content` is `sanitizedContent` — the
pre-persist plaintext (socket.js lines 308-390). -/
def socketSendFinish (rlState : Option RateEntry) (conversationId userId role : String)
    (sanitizedContent : JStr) : Except String EncryptResult → SendOutcome
  | .error _ =>
    { error := some .encryptionFailed, rate := rlState, stored := none, emittedContent := none }
  | .ok encryptionResult =>
    { error := none
      rate := rlState
      stored := some
        { conversation_id := conversationId, sender_id := userId, sender_role := role
          encrypted_content := encryptionResult.encrypted
          content_hash := encryptionResult.hash
          is_compressed := encryptionResult.isCompressed }
      emittedContent := some sanitizedContent }

/-- Conversation-resolution phase of the real-time send handler: not-found
check, then the security check, then sanitize and finish (socket.js lines
264-306). -/
def socketSendAccessPhase (rlState : Option RateEntry) (iv : List Nat)
    (role userId conversationId : String) (content : JStr) : Option ConvRow → SendOutcome
  | none =>
    { error := some .convNotFound, rate := rlState, stored := none, emittedContent := none }
  | some conversation =>
    if role = "customer" ∧ conversation.customer_id ≠ userId then
      { error := some .accessDenied, rate := rlState, stored := none, emittedContent := none }
    else if role = "vendor" ∧ conversation.vendor_id ≠ userId then
      { error := some .accessDenied, rate := rlState, stored := none, emittedContent := none }
    else
      socketSendFinish rlState conversationId userId role (sanitizeMessageContent content)
        (encryptModel iv (sanitizeMessageContent content))

/-- The `send_message` handler of the real-time path (socket.js lines
228-407): validate the conversation id and content, **then consume the
rate limit**, then resolve the conversation, run the security check,
sanitize, encrypt, persist, and fan out. -/
def socketSendMessage (now : Nat) (iv : List Nat) (rate : Option RateEntry)
    (convLookup : Option ConvRow) (role userId : String)
    (conversationId : String) (content : JStr) : SendOutcome :=
  if ¬validConversationId conversationId then
    { error := some .invalidConvId, rate := rate, stored := none, emittedContent := none }
  else if ¬validMessageContent content then
    { error := some .invalidContent, rate := rate, stored := none, emittedContent := none }
  else
    let rl := checkRateLimit now rate
    if ¬rl.allowed then
      { error := some (.rateLimited ((rl.resetTime.getD now - now + 999) / 1000))
        rate := rl.state, stored := none, emittedContent := none }
    else socketSendAccessPhase rl.state iv role userId conversationId content convLookup

theorem checkRateLimit_state_ne {now : Nat} {rate : Option RateEntry}
    (h : (checkRateLimit now rate).allowed = true) :
    (checkRateLimit now rate).state ≠ rate := by
  cases rate with
  | none => simp [checkRateLimit]
  | some userLimit =>
    simp only [checkRateLimit] at h ⊢
    split_ifs at h ⊢ with h1 h2
    · simp only [ne_eq, Option.some.injEq]
      intro heq
      rw [← heq] at h1
      simp at h1
    · simp only [ne_eq, Option.some.injEq]
      intro heq
      have := congrArg RateEntry.count heq
      simp at this

/-- C5 (counterexample): a non-participant's send on the real-time path
does fail with AccessDenied, but the caller's rate-limit window is
consumed first — here initialized from empty to count 1 — because
`checkRateLimit` runs before the conversation security check. -/
theorem C5_rate_window_consumed_on_access_denied :
    (socketSendMessage 0 (List.replicate 16 0) none
        (some { customer_id := "c1", vendor_id := "v1" }) "customer" "u1"
        "00000000-0000-4000-8000-000000000000" [104, 101, 108, 108, 111]).error
      = some .accessDenied ∧
    (socketSendMessage 0 (List.replicate 16 0) none
        (some { customer_id := "c1", vendor_id := "v1" }) "customer" "u1"
        "00000000-0000-4000-8000-000000000000" [104, 101, 108, 108, 111]).rate
      = some { count := 1, resetTime := 60000 } := by
  constructor
  · rfl
  · rfl

/-- C5 (amended): the real-time pipeline rate-limits before it authorizes.
For a non-participant caller with valid inputs: when the caller is at the
cap the request fails RateLimited (not AccessDenied), and when under the
cap it fails AccessDenied with the rate window already consumed (the
stored window differs from the pre-request one). -/
theorem C5_rate_limit_precedes_authorization
    (now : Nat) (iv : List Nat) (rate : Option RateEntry) (conversation : ConvRow)
    (role userId conversationId : String) (content : JStr)
    (hconv : validConversationId conversationId = true)
    (hcontent : validMessageContent content = true)
    (hnp : (role = "customer" ∧ conversation.customer_id ≠ userId) ∨
      (role = "vendor" ∧ conversation.vendor_id ≠ userId)) :
    ((checkRateLimit now rate).allowed = false →
      (socketSendMessage now iv rate (some conversation) role userId conversationId content).error
        = some (.rateLimited (((checkRateLimit now rate).resetTime.getD now - now + 999) / 1000))) ∧
    ((checkRateLimit now rate).allowed = true →
      (socketSendMessage now iv rate (some conversation) role userId conversationId content).error
        = some .accessDenied ∧
      (socketSendMessage now iv rate (some conversation) role userId conversationId content).rate
        = (checkRateLimit now rate).state ∧
      (checkRateLimit now rate).state ≠ rate) := by
  constructor
  · intro hden
    unfold socketSendMessage
    rw [if_neg (by simp [hconv]), if_neg (by simp [hcontent])]
    rw [if_pos (by simp [hden])]
  · intro hall
    have hout :
        (socketSendMessage now iv rate (some conversation) role userId conversationId content)
          = { error := some .accessDenied, rate := (checkRateLimit now rate).state,
              stored := none, emittedContent := none } := by
      unfold socketSendMessage
      rw [if_neg (by simp [hconv]), if_neg (by simp [hcontent])]
      rw [if_neg (by simp [hall])]
      simp only [socketSendAccessPhase]
      rcases hnp with ⟨hrole, hne⟩ | ⟨hrole, hne⟩
      · rw [if_pos ⟨hrole, hne⟩]
      · rw [if_neg (by
            intro hcontra
            rw [hrole] at hcontra
            exact absurd hcontra.1 (by decide))]
        rw [if_pos ⟨hrole, hne⟩]
    rw [hout]
    exact ⟨rfl, rfl, checkRateLimit_state_ne hall⟩

/-- C5 witness: the amended ordering statement evaluated for an
under-the-cap non-participant customer. -/
theorem C5_rate_limit_precedes_authorization_witness :
    (socketSendMessage 0 (List.replicate 16 0) none
        (some { customer_id := "c2", vendor_id := "v2" }) "customer" "u2"
        "00000000-0000-4000-8000-000000000000" [104, 105]).error = some .accessDenied ∧
    (socketSendMessage 0 (List.replicate 16 0) none
        (some { customer_id := "c2", vendor_id := "v2" }) "customer" "u2"
        "00000000-0000-4000-8000-000000000000" [104, 105]).rate
      = (checkRateLimit 0 none).state ∧
    (checkRateLimit 0 none).state ≠ none :=
  (C5_rate_limit_precedes_authorization 0 (List.replicate 16 0) none
      { customer_id := "c2", vendor_id := "v2" } "customer" "u2"
      "00000000-0000-4000-8000-000000000000" [104, 105]
      (by decide) (by decide) (Or.inl ⟨rfl, by decide⟩)).2 (by decide)

/-! ### The synchronous send handler (chat.js POST messages) -/

/-- Observable outcome of a synchronous send: error, persisted row, and
the `content` field of the response message. -/
structure RestSendOutcome where
  error : Option SendError
  stored : Option StoredMessage
  responseContent : Option JStr
  deriving Repr, DecidableEq

/-- Tail of the synchronous send handler: encrypt, persist, then decrypt
the just-persisted ciphertext for the response, falling back to the
sanitized plaintext if that decryption fails (chat.js lines 628-722). -/
def restSendFinish (conversationId userId role : String) (sanitizedContent : JStr) :
    Except String EncryptResult → RestSendOutcome
  | .error _ => { error := some .encryptionFailed, stored := none, responseContent := none }
  | .ok encryptionResult =>
    { error := none
      stored := some
        { conversation_id := conversationId, sender_id := userId, sender_role := role
          encrypted_content := encryptionResult.encrypted
          content_hash := encryptionResult.hash
          is_compressed := encryptionResult.isCompressed }
      responseContent := some
        (match decryptModel encryptionResult.encrypted with
          | .ok decryptedContent => decryptedContent
          | .error _ => sanitizedContent) }

/-- Conversation-resolution phase of the synchronous send handler
(chat.js lines 587-626). -/
def restSendAccessPhase (iv : List Nat) (role userId conversationId : String)
    (content : JStr) : Option ConvRow → RestSendOutcome
  | none => { error := some .convNotFound, stored := none, responseContent := none }
  | some conversation =>
    if role = "customer" ∧ conversation.customer_id ≠ userId then
      { error := some .accessDenied, stored := none, responseContent := none }
    else if role = "vendor" ∧ conversation.vendor_id ≠ userId then
      { error := some .accessDenied, stored := none, responseContent := none }
    else
      restSendFinish conversationId userId role (sanitizeMessageContent content)
        (encryptModel iv (sanitizeMessageContent content))

/-- `POST /conversations/:conversationId/messages` (chat.js lines
556-728): validate conversation id, content and credentials, resolve the
conversation, check access, sanitize, encrypt, persist, decrypt the
persisted ciphertext for the response. -/
def restSendMessage (iv : List Nat) (convLookup : Option ConvRow) (role userId : String)
    (conversationId : String) (content : JStr) : RestSendOutcome :=
  if ¬validConversationId conversationId then
    { error := some .invalidConvId, stored := none, responseContent := none }
  else if ¬validMessageContent content then
    { error := some .invalidContent, stored := none, responseContent := none }
  else if ¬isValidRole role then
    { error := some .invalidCredentials, stored := none, responseContent := none }
  else restSendAccessPhase iv role userId conversationId content convLookup

/-! ### Claim C3 support lemmas -/

theorem mem_sanitizeMessageContent {content : JStr} :
    ∀ c ∈ sanitizeMessageContent content, c = 10 ∨ c ∈ content := by
  intro c hc
  unfold sanitizeMessageContent at hc
  have h1 := mem_collapseNewlines c hc
  rcases mem_replaceCR c h1 with rfl | h2
  · exact Or.inl rfl
  · have h3 := mem_replaceCRLF c h2
    unfold stripControl at h3
    have h4 := List.mem_of_mem_filter h3
    exact Or.inr ((jsTrim_within content).subset h4)

theorem sanitize_lt256 {content : JStr} (h : ∀ b ∈ content, b < 256) :
    ∀ b ∈ sanitizeMessageContent content, b < 256 := by
  intro b hb
  rcases mem_sanitizeMessageContent b hb with rfl | hmem
  · omega
  · exact h b hmem

theorem replaceCRLF_length_le : ∀ xs : List Nat, (replaceCRLF xs).length ≤ xs.length
  | [] => by simp [replaceCRLF]
  | [c] => by simp [replaceCRLF]
  | c :: c2 :: rest => by
    rw [replaceCRLF]
    split_ifs
    · have := replaceCRLF_length_le rest
      simp only [List.length_cons]
      omega
    · have := replaceCRLF_length_le (c2 :: rest)
      simp only [List.length_cons] at this ⊢
      omega

theorem collapseNewlines_length_le : ∀ xs : List Nat,
    (collapseNewlines xs).length ≤ xs.length
  | [] => by simp [collapseNewlines]
  | c :: rest => by
    rw [collapseNewlines]
    split_ifs with hc
    · have ih := collapseNewlines_length_le (rest.dropWhile (· == 10))
      have hsplit : (rest.takeWhile (· == 10)).length + (rest.dropWhile (· == 10)).length
          = rest.length := by
        rw [← List.length_append, List.takeWhile_append_dropWhile]
      simp only [List.length_append, List.length_replicate, List.length_cons]
      omega
    · have ih := collapseNewlines_length_le rest
      simp only [List.length_cons]
      omega
termination_by xs => xs.length
decreasing_by
  · simp only [List.length_cons]
    have := (List.dropWhile_sublist (l := rest) (fun c => c == 10)).length_le
    omega
  · simp

theorem sanitize_length_le_trim (content : JStr) :
    (sanitizeMessageContent content).length ≤ (jsTrim content).length := by
  unfold sanitizeMessageContent
  calc (collapseNewlines (replaceCR (replaceCRLF (stripControl (jsTrim content))))).length
      ≤ (replaceCR (replaceCRLF (stripControl (jsTrim content)))).length :=
        collapseNewlines_length_le _
    _ = (replaceCRLF (stripControl (jsTrim content))).length := by simp [replaceCR]
    _ ≤ (stripControl (jsTrim content)).length := replaceCRLF_length_le _
    _ ≤ (jsTrim content).length := List.length_filter_le _ _

theorem encryptModel_nil (iv : List Nat) (u : Bool) :
    encryptModel iv [] u = .error "Encryption produced empty result" := by
  simp [encryptModel, compressAndEncode, hexEncode, aesGcmCipher]

theorem encryptModel_ok_ne_nil {iv : List Nat} {text : JStr} {u : Bool} {e : EncryptResult}
    (h : encryptModel iv text u = .ok e) : text ≠ [] := by
  intro hnil
  rw [hnil, encryptModel_nil] at h
  exact Except.noConfusion h

theorem encrypted_length_le {iv : List Nat} {text : JStr} {u : Bool} {e : EncryptResult}
    (hivlen : iv.length = 16) (hlen : text.length ≤ 5000)
    (henc : encryptModel iv text u = .ok e) : e.encrypted.length ≤ 200000 := by
  have hne : text ≠ [] := encryptModel_ok_ne_nil henc
  rw [encryptModel_ok (by omega) hne] at henc
  obtain rfl : e = _ := (Except.ok.inj henc).symm
  by_cases hc : (u && decide (text.length > 100)) = true
  · simp only [hc, if_true]
    have hcm : (compressMessage text).length = text.length + 6 := by
      unfold compressMessage
      rw [if_neg (by omega), gzipModel_length]
    have hd : (compressAndEncode text).length = 4 * ((text.length + 6 + 2) / 3) := by
      unfold compressAndEncode
      rw [base64Encode_length, hcm]
    have hblen := encBody_length iv (authTagModel iv (compressAndEncode text))
      (compressAndEncode text)
    rw [authTagModel_length, hivlen, hd] at hblen
    simp only [List.length_cons, hblen]
    omega
  · have hcf : (u && decide (text.length > 100)) = false := by
      revert hc
      cases u && decide (text.length > 100) <;> simp
    simp only [hcf, Bool.false_eq_true, if_false]
    have hblen := encBody_length iv (authTagModel iv text) text
    rw [authTagModel_length, hivlen] at hblen
    rw [hblen]
    omega

theorem decrypt_of_sanitized_send {iv : List Nat} {content : JStr} {er : EncryptResult}
    (hivlen : iv.length = 16) (hiv : ∀ b ∈ iv, b < 256)
    (hcontent : ∀ b ∈ content, b < 256)
    (hvalid : validMessageContent content = true)
    (henc : encryptModel iv (sanitizeMessageContent content) = .ok er) :
    decryptModel er.encrypted = .ok (sanitizeMessageContent content) := by
  have hsan256 := sanitize_lt256 hcontent
  have hsanne := encryptModel_ok_ne_nil henc
  have hsanlen : (sanitizeMessageContent content).length ≤ 5000 := by
    have h1 := sanitize_length_le_trim content
    unfold validMessageContent at hvalid
    simp only [Bool.and_eq_true, decide_eq_true_eq] at hvalid
    omega
  exact decryptModel_encryptModel hivlen hiv hsan256 hsanne (by omega)
    (fun hgt => absurd hgt (by omega)) henc (encrypted_length_le hivlen hsanlen henc)

theorem socketSendMessage_success
    {now : Nat} {iv : List Nat} {rate : Option RateEntry} {convLookup : Option ConvRow}
    {role userId conversationId : String} {content : JStr}
    (herr : (socketSendMessage now iv rate convLookup role userId conversationId content).error
      = none) :
    validMessageContent content = true ∧
    ∃ er, encryptModel iv (sanitizeMessageContent content) = .ok er ∧
      socketSendMessage now iv rate convLookup role userId conversationId content =
        { error := none, rate := (checkRateLimit now rate).state
          stored := some
            { conversation_id := conversationId, sender_id := userId, sender_role := role
              encrypted_content := er.encrypted, content_hash := er.hash
              is_compressed := er.isCompressed }
          emittedContent := some (sanitizeMessageContent content) } := by
  by_cases h1 : validConversationId conversationId = true
  case neg =>
    unfold socketSendMessage at herr
    rw [if_pos h1] at herr
    simp at herr
  by_cases h2 : validMessageContent content = true
  case neg =>
    unfold socketSendMessage at herr
    rw [if_neg (by simp [h1]), if_pos h2] at herr
    simp at herr
  by_cases h3 : (checkRateLimit now rate).allowed = true
  case neg =>
    unfold socketSendMessage at herr
    rw [if_neg (by simp [h1]), if_neg (by simp [h2]), if_pos (by simpa using h3)] at herr
    simp at herr
  have hred : socketSendMessage now iv rate convLookup role userId conversationId content =
      socketSendAccessPhase (checkRateLimit now rate).state iv role userId conversationId
        content convLookup := by
    unfold socketSendMessage
    rw [if_neg (by simp [h1]), if_neg (by simp [h2]), if_neg (by simp [h3])]
  rw [hred] at herr
  cases hconv : convLookup with
  | none =>
    rw [hconv] at herr
    simp [socketSendAccessPhase] at herr
  | some conversation =>
    rw [hconv] at herr
    simp only [socketSendAccessPhase] at herr
    by_cases h4 : role = "customer" ∧ conversation.customer_id ≠ userId
    case pos =>
      rw [if_pos h4] at herr
      simp at herr
    by_cases h5 : role = "vendor" ∧ conversation.vendor_id ≠ userId
    case pos =>
      rw [if_neg h4, if_pos h5] at herr
      simp at herr
    rw [if_neg h4, if_neg h5] at herr
    cases henc : encryptModel iv (sanitizeMessageContent content) with
    | error e =>
      rw [henc] at herr
      simp [socketSendFinish] at herr
    | ok er =>
      refine ⟨h2, er, rfl, ?_⟩
      have hred2 : socketSendMessage now iv rate (some conversation) role userId
          conversationId content =
          socketSendAccessPhase (checkRateLimit now rate).state iv role userId conversationId
            content (some conversation) := by
        unfold socketSendMessage
        rw [if_neg (by simp [h1]), if_neg (by simp [h2]), if_neg (by simp [h3])]
      rw [hred2]
      simp only [socketSendAccessPhase]
      rw [if_neg h4, if_neg h5, henc]
      rfl

theorem restSendMessage_success
    {iv : List Nat} {convLookup : Option ConvRow}
    {role userId conversationId : String} {content : JStr}
    (herr : (restSendMessage iv convLookup role userId conversationId content).error = none) :
    validMessageContent content = true ∧
    ∃ er, encryptModel iv (sanitizeMessageContent content) = .ok er ∧
      restSendMessage iv convLookup role userId conversationId content =
        { error := none
          stored := some
            { conversation_id := conversationId, sender_id := userId, sender_role := role
              encrypted_content := er.encrypted, content_hash := er.hash
              is_compressed := er.isCompressed }
          responseContent := some
            (match decryptModel er.encrypted with
              | .ok decryptedContent => decryptedContent
              | .error _ => sanitizeMessageContent content) } := by
  by_cases h1 : validConversationId conversationId = true
  case neg =>
    unfold restSendMessage at herr
    rw [if_pos h1] at herr
    simp at herr
  by_cases h2 : validMessageContent content = true
  case neg =>
    unfold restSendMessage at herr
    rw [if_neg (by simp [h1]), if_pos h2] at herr
    simp at herr
  by_cases h3 : isValidRole role = true
  case neg =>
    unfold restSendMessage at herr
    rw [if_neg (by simp [h1]), if_neg (by simp [h2]), if_pos h3] at herr
    simp at herr
  have hred : restSendMessage iv convLookup role userId conversationId content =
      restSendAccessPhase iv role userId conversationId content convLookup := by
    unfold restSendMessage
    rw [if_neg (by simp [h1]), if_neg (by simp [h2]), if_neg (by simp [h3])]
  rw [hred] at herr
  cases hconv : convLookup with
  | none =>
    rw [hconv] at herr
    simp [restSendAccessPhase] at herr
  | some conversation =>
    rw [hconv] at herr
    simp only [restSendAccessPhase] at herr
    by_cases h4 : role = "customer" ∧ conversation.customer_id ≠ userId
    case pos =>
      rw [if_pos h4] at herr
      simp at herr
    by_cases h5 : role = "vendor" ∧ conversation.vendor_id ≠ userId
    case pos =>
      rw [if_neg h4, if_pos h5] at herr
      simp at herr
    rw [if_neg h4, if_neg h5] at herr
    cases henc : encryptModel iv (sanitizeMessageContent content) with
    | error e =>
      rw [henc] at herr
      simp [restSendFinish] at herr
    | ok er =>
      refine ⟨h2, er, rfl, ?_⟩
      have hred2 : restSendMessage iv (some conversation) role userId conversationId content =
          restSendAccessPhase iv role userId conversationId content (some conversation) := by
        unfold restSendMessage
        rw [if_neg (by simp [h1]), if_neg (by simp [h2]), if_neg (by simp [h3])]
      rw [hred2]
      simp only [restSendAccessPhase]
      rw [if_neg h4, if_neg h5, henc]
      rfl

/-- C3: on both transports, every successful send emits/responds with
content equal to the decryption of the just-persisted
`encrypted_content`.  (On the real-time path the handler reuses the
pre-persist sanitized plaintext for the fan-out, but that value provably
coincides with the decryption of what was stored.) -/
theorem C3_broadcast_matches_persisted
    (now : Nat) (iv : List Nat) (rate : Option RateEntry) (convLookup : Option ConvRow)
    (role userId conversationId : String) (content : JStr)
    (hivlen : iv.length = 16) (hiv : ∀ b ∈ iv, b < 256)
    (hcontent : ∀ b ∈ content, b < 256) :
    ((socketSendMessage now iv rate convLookup role userId conversationId content).error = none →
      ∃ stored emitted,
        (socketSendMessage now iv rate convLookup role userId conversationId content).stored
          = some stored ∧
        (socketSendMessage now iv rate convLookup role userId conversationId content).emittedContent
          = some emitted ∧
        decryptModel stored.encrypted_content = .ok emitted) ∧
    ((restSendMessage iv convLookup role userId conversationId content).error = none →
      ∃ stored responded,
        (restSendMessage iv convLookup role userId conversationId content).stored
          = some stored ∧
        (restSendMessage iv convLookup role userId conversationId content).responseContent
          = some responded ∧
        decryptModel stored.encrypted_content = .ok responded) := by
  constructor
  · intro herr
    obtain ⟨hvalid, er, henc, hout⟩ := socketSendMessage_success herr
    have hdec := decrypt_of_sanitized_send hivlen hiv hcontent hvalid henc
    rw [hout]
    exact ⟨_, _, rfl, rfl, hdec⟩
  · intro herr
    obtain ⟨hvalid, er, henc, hout⟩ := restSendMessage_success herr
    have hdec := decrypt_of_sanitized_send hivlen hiv hcontent hvalid henc
    rw [hout]
    refine ⟨_, sanitizeMessageContent content, rfl, ?_, hdec⟩
    rw [hdec]

/-- C3 witness: the statement evaluated for a participant customer sending
"hi" over the real-time path. -/
theorem C3_broadcast_matches_persisted_witness :
    ∃ stored emitted,
      (socketSendMessage 0 (List.replicate 16 0) none
          (some { customer_id := "u3", vendor_id := "v3" }) "customer" "u3"
          "00000000-0000-4000-8000-000000000000" [104, 105]).stored = some stored ∧
      (socketSendMessage 0 (List.replicate 16 0) none
          (some { customer_id := "u3", vendor_id := "v3" }) "customer" "u3"
          "00000000-0000-4000-8000-000000000000" [104, 105]).emittedContent = some emitted ∧
      decryptModel stored.encrypted_content = .ok emitted := by
  have hsan : sanitizeMessageContent [104, 105] = [104, 105] := by
    simp [sanitizeMessageContent, jsTrim, stripControl, isStrippedControl, isJsWhitespace,
      replaceCRLF, replaceCR, collapseNewlines]
  apply (C3_broadcast_matches_persisted 0 (List.replicate 16 0) none
    (some { customer_id := "u3", vendor_id := "v3" }) "customer" "u3"
    "00000000-0000-4000-8000-000000000000" [104, 105]
    (by decide) (by decide) (by decide)).1
  unfold socketSendMessage
  rw [if_neg (by decide), if_neg (by decide), if_neg (by decide)]
  simp only [socketSendAccessPhase]
  rw [if_neg (by decide), if_neg (by decide), hsan]
  rfl

/-! ### Mark-read handlers (chat.js PUT read routes) -/

/-- Result of a mark-read request; the route replies `success: true` with
a note in all three non-error cases. -/
inductive ReadResult
  | badRequest
  | notFound
  | accessDenied
  | ok (note : String)
  deriving Repr, DecidableEq

/-- The bulk `UPDATE ... SET is_read = true, read_at = now WHERE p`: the
matching rows are selected on the pre-update snapshot and each row update
fires the read trigger (`markReadOp`), row by row. -/
def bulkRead (now : Nat) (p : MsgRow → Bool) (c : ConvState) : ConvState :=
  ((List.range c.msgs.length).filter fun i =>
    match c.msgs[i]? with
    | some m => p m
    | none => false).foldl (fun st i => markReadOp now st i) c

/-- Single-message route, phase acting on the fetched message row: a
missing row and the caller's own message are silent successes without any
update; otherwise set `is_read`/`read_at` (firing the trigger). -/
def markMessageReadMsgPhase (now : Nat) (c : ConvState) (i : Nat) (userId : String) :
    Option MsgRow → ReadResult × ConvState
  | none => (.ok "Message not found or already processed", c)
  | some message =>
    if message.senderId = userId then
      (.ok "Cannot mark your own message as read", c)
    else (.ok "Message marked as read", markReadOp now c i)

/-- Single-message route, phase acting on the located message index. -/
def markMessageReadFetchPhase (now : Nat) (c : ConvState) (userId : String) :
    Option Nat → ReadResult × ConvState
  | none => (.ok "Message not found or already processed", c)
  | some i => markMessageReadMsgPhase now c i userId (c.msgs[i]?)

/-- Single-message route, conversation-resolution phase. -/
def markMessageReadAccessPhase (now : Nat) (c : ConvState)
    (role userId messageId : String) : Option ConvRow → ReadResult × ConvState
  | none => (.notFound, c)
  | some conversation =>
    if role = "customer" ∧ conversation.customer_id ≠ userId then (.accessDenied, c)
    else if role = "vendor" ∧ conversation.vendor_id ≠ userId then (.accessDenied, c)
    else markMessageReadFetchPhase now c userId (c.msgs.findIdx? fun m => m.mid == messageId)

/-- `PUT /conversations/:conversationId/messages/:messageId/read`
(chat.js lines 735-875): validate, resolve the conversation, check
access, fetch the message, then apply the own-message check and the
update. -/
def markMessageRead (now : Nat) (convLookup : Option ConvRow) (c : ConvState)
    (role userId conversationId messageId : String) : ReadResult × ConvState :=
  if ¬validConversationId conversationId then (.badRequest, c)
  else if ¬validMessageId messageId then (.badRequest, c)
  else if ¬isValidRole role then (.badRequest, c)
  else markMessageReadAccessPhase now c role userId messageId convLookup

/-- Bulk route, conversation-resolution phase: after the access check,
bulk-mark every unread message authored by the other role. -/
def markConversationReadAccessPhase (now : Nat) (c : ConvState)
    (role userId : String) : Option ConvRow → ReadResult × ConvState
  | none => (.notFound, c)
  | some conversation =>
    if role = "customer" ∧ conversation.customer_id ≠ userId then (.accessDenied, c)
    else if role = "vendor" ∧ conversation.vendor_id ≠ userId then (.accessDenied, c)
    else
      (.ok "All messages marked as read",
        bulkRead now
          (fun m => decide (m.senderRole =
            (if role = "customer" then Role.vendor else Role.customer)) && !m.isRead) c)

/-- `PUT /conversations/:conversationId/read` (chat.js lines 882-985):
validate, resolve, check access, then bulk-mark. -/
def markConversationRead (now : Nat) (convLookup : Option ConvRow) (c : ConvState)
    (role userId conversationId : String) : ReadResult × ConvState :=
  if ¬validConversationId conversationId then (.badRequest, c)
  else if ¬isValidRole role then (.badRequest, c)
  else markConversationReadAccessPhase now c role userId convLookup

theorem markReadOp_preserves_other {c : ConvState} {i j now : Nat} (hne : j ≠ i) :
    (markReadOp now c j).msgs[i]? = c.msgs[i]? := by
  cases hm : c.msgs[j]? with
  | none => rw [markReadOp_eq_none hm]
  | some m =>
    cases hread : m.isRead with
    | false =>
      rw [markReadOp_eq_unread hm hread]
      exact List.getElem?_set_ne (by omega)
    | true =>
      rw [markReadOp_eq_read hm hread]
      exact List.getElem?_set_ne (by omega)

theorem foldl_markReadOp_preserves {now : Nat} {i : Nat} :
    ∀ (js : List Nat) (c : ConvState), i ∉ js →
      (js.foldl (fun st j => markReadOp now st j) c).msgs[i]? = c.msgs[i]?
  | [], c, _ => rfl
  | j :: rest, c, h => by
    rw [List.foldl_cons]
    rw [foldl_markReadOp_preserves rest _ fun hr => h (by simp [hr])]
    exact markReadOp_preserves_other fun hji => h (by simp [hji])

/-- C7: (1) a single-message mark-read request by the message's own
sender returns success with the state (messages, read timestamps,
counters) completely unchanged; (2) the bulk mark-conversation-read never
touches a message authored by the caller's own role; (3) when no unread
other-party message exists, the bulk route succeeds with the state
unchanged. -/
theorem C7_sender_cannot_mark_own_message
    (now : Nat) (conversation : ConvRow) (c : ConvState)
    (role userId conversationId messageId : String) :
    (∀ (i : Nat) (message : MsgRow), (c.msgs.findIdx? fun m => m.mid == messageId) = some i →
      c.msgs[i]? = some message → message.senderId = userId →
      validConversationId conversationId = true → validMessageId messageId = true →
      isValidRole role = true →
      socketConversationCheck role userId conversation = true →
      markMessageRead now (some conversation) c role userId conversationId messageId =
        (.ok "Cannot mark your own message as read", c)) ∧
    (∀ (i : Nat) (message : MsgRow), c.msgs[i]? = some message →
      (if role = "customer" then Role.vendor else Role.customer) ≠ message.senderRole →
      (markConversationRead now (some conversation) c role userId conversationId).2.msgs[i]?
        = some message) ∧
    ((∀ message ∈ c.msgs,
        ¬((if role = "customer" then Role.vendor else Role.customer) = message.senderRole ∧
          message.isRead = false)) →
      validConversationId conversationId = true → isValidRole role = true →
      socketConversationCheck role userId conversation = true →
      markConversationRead now (some conversation) c role userId conversationId =
        (.ok "All messages marked as read", c)) := by
  refine ⟨?_, ?_, ?_⟩
  · intro i message hfind hget hsender hcid hmid hrole hacc
    unfold markMessageRead
    rw [if_neg (by simp [hcid]), if_neg (by simp [hmid]), if_neg (by simp [hrole])]
    have hacc1 : ¬(role = "customer" ∧ conversation.customer_id ≠ userId) := by
      intro hcontra
      unfold socketConversationCheck at hacc
      rw [if_pos hcontra] at hacc
      exact Bool.noConfusion hacc
    have hacc2 : ¬(role = "vendor" ∧ conversation.vendor_id ≠ userId) := by
      intro hcontra
      unfold socketConversationCheck at hacc
      rw [if_neg hacc1, if_pos hcontra] at hacc
      exact Bool.noConfusion hacc
    simp only [markMessageReadAccessPhase]
    rw [if_neg hacc1, if_neg hacc2, hfind]
    simp only [markMessageReadFetchPhase]
    rw [hget]
    simp only [markMessageReadMsgPhase]
    rw [if_pos hsender]
  · intro i message hget hrole
    unfold markConversationRead
    by_cases hv1 : validConversationId conversationId = true
    case neg => rw [if_pos hv1]; exact hget
    rw [if_neg (by simp [hv1])]
    by_cases hv2 : isValidRole role = true
    case neg => rw [if_pos hv2]; exact hget
    rw [if_neg (by simp [hv2])]
    simp only [markConversationReadAccessPhase]
    by_cases ha1 : role = "customer" ∧ conversation.customer_id ≠ userId
    case pos => rw [if_pos ha1]; exact hget
    rw [if_neg ha1]
    by_cases ha2 : role = "vendor" ∧ conversation.vendor_id ≠ userId
    case pos => rw [if_pos ha2]; exact hget
    rw [if_neg ha2, ← hget]
    show (bulkRead now (fun m => decide (m.senderRole =
      (if role = "customer" then Role.vendor else Role.customer)) && !m.isRead)
      c).msgs[i]? = c.msgs[i]?
    unfold bulkRead
    apply foldl_markReadOp_preserves
    intro hmem
    rw [List.mem_filter] at hmem
    obtain ⟨-, hsel⟩ := hmem
    simp [hget] at hsel
    exact hrole hsel.1.symm
  · intro hnone hcid hrole hacc
    unfold markConversationRead
    rw [if_neg (by simp [hcid]), if_neg (by simp [hrole])]
    have hacc1 : ¬(role = "customer" ∧ conversation.customer_id ≠ userId) := by
      intro hcontra
      unfold socketConversationCheck at hacc
      rw [if_pos hcontra] at hacc
      exact Bool.noConfusion hacc
    have hacc2 : ¬(role = "vendor" ∧ conversation.vendor_id ≠ userId) := by
      intro hcontra
      unfold socketConversationCheck at hacc
      rw [if_neg hacc1, if_pos hcontra] at hacc
      exact Bool.noConfusion hacc
    simp only [markConversationReadAccessPhase]
    rw [if_neg hacc1, if_neg hacc2]
    have hfilter :
        ((List.range c.msgs.length).filter fun i =>
          match c.msgs[i]? with
          | some m => (decide (m.senderRole =
              (if role = "customer" then Role.vendor else Role.customer)) && !m.isRead)
          | none => false) = [] := by
      rw [List.filter_eq_nil_iff]
      intro j hj
      cases hm : c.msgs[j]? with
      | none => simp
      | some m =>
        simp only [Bool.and_eq_true, decide_eq_true_eq, not_and]
        intro hsr
        have := hnone m (List.getElem?_mem hm)
        simp only [not_and] at this
        have hne := this hsr.symm
        cases hb : m.isRead with
        | false => exact absurd hb hne
        | true => simp [hb]
    unfold bulkRead
    rw [hfilter]
    rfl

/-- C7 witness: the three statements evaluated on a one-message store
where the requesting customer is the sender. -/
theorem C7_sender_cannot_mark_own_message_witness :
    markMessageRead 5 (some ({ customer_id := "u4", vendor_id := "v4" } : ConvRow))
        (⟨0, 0, none, 0,
          [⟨"00000000-0000-4000-8000-000000000001", "u4", .customer, false, none, 1⟩]⟩ : ConvState)
        "customer" "u4" "00000000-0000-4000-8000-000000000000"
        "00000000-0000-4000-8000-000000000001" =
      (.ok "Cannot mark your own message as read",
        (⟨0, 0, none, 0,
          [⟨"00000000-0000-4000-8000-000000000001", "u4", .customer, false, none, 1⟩]⟩ : ConvState)) :=
  (C7_sender_cannot_mark_own_message 5 ({ customer_id := "u4", vendor_id := "v4" } : ConvRow)
      (⟨0, 0, none, 0,
        [⟨"00000000-0000-4000-8000-000000000001", "u4", .customer, false, none, 1⟩]⟩ : ConvState)
      "customer" "u4" "00000000-0000-4000-8000-000000000000"
      "00000000-0000-4000-8000-000000000001").1 0
    ⟨"00000000-0000-4000-8000-000000000001", "u4", .customer, false, none, 1⟩
    (by decide) (by decide) (by decide) (by decide) (by decide) (by decide) (by decide)

/-! ### C8: get-or-create conversation (chat.js `POST /conversations`) -/

/-- A stored conversation row with its id. -/
structure ConvRec where
  cid : String
  customer_id : String
  vendor_id : String
  deriving Repr, DecidableEq

/-- The `.eq('customer_id', ...).eq('vendor_id', ...).single()` lookup:
the first row matching the pair. -/
def lookupPair (convs : List ConvRec) (customerId vendorId : String) :
    Option ConvRec :=
  convs.find? fun r => r.customer_id == customerId && r.vendor_id == vendorId

/-- `validateVendorId` (chatValidation.js lines 73-87): present and in
uuid format (the string-type check is a non-issue here). -/
def validateVendorId (vendorId : String) : Bool :=
  !(vendorId == "") && isValidUUIDFormat vendorId

/-- Outcome of `POST /conversations`. -/
inductive CreateResult where
  | badRequest (msg : String)
  | vendorNotFound
  | okExisting (conversationId : String)
  | created (conversationId : String)
  deriving Repr, DecidableEq

/-- The conversation id reported on a success response. -/
def CreateResult.convId : CreateResult → Option String
  | .okExisting cid => some cid
  | .created cid => some cid
  | _ => none

/-- `POST /conversations` (chat.js lines 396-543). `vendors` is the
vendor table, `s0` the conversations table at the time of the
existing-conversation lookup, `s1` the table at the time of the insert (a
concurrent request may have inserted the pair in between: the unique
constraint on the pair then raises 23505 and the handler re-reads and
returns the winner), `newId` the id the database would assign to a fresh
row. Returns the response and the final conversations table. -/
def createConversation (vendors : List String) (s0 s1 : List ConvRec)
    (newId customerId vendorId : String) : CreateResult × List ConvRec :=
  if customerId = "" then (.badRequest "Invalid customer ID", s1)
  else if ¬ validateVendorId vendorId = true then
    (.badRequest "Invalid vendor ID", s1)
  else if customerId = vendorId then
    (.badRequest "Cannot create conversation with yourself", s1)
  else if ¬ vendors.contains vendorId = true then (.vendorNotFound, s1)
  else match lookupPair s0 customerId vendorId with
    | some existing => (.okExisting existing.cid, s1)
    | none =>
      match lookupPair s1 customerId vendorId with
      | some racing => (.okExisting racing.cid, s1)
      | none => (.created newId, ⟨newId, customerId, vendorId⟩ :: s1)

/-- C8: under valid inputs (customer id present, vendor id well-formed,
distinct ids, vendor existing): (1) whatever a first call with consistent
table snapshots returns, a second call against the resulting table
reports the same conversation id and leaves the table unchanged; (2) on a
uniqueness-conflict race (pair absent at the lookup, present at the
insert) the handler returns the racing row's id, not an error; (3) a pair
with customerId = vendorId is rejected. -/
theorem C8_get_or_create_idempotent
    (vendors : List String) (s : List ConvRec)
    (newId newId2 customerId vendorId : String)
    (hc : customerId ≠ "") (hv : validateVendorId vendorId = true)
    (hne : customerId ≠ vendorId) (hvend : vendors.contains vendorId = true) :
    (∀ r s', createConversation vendors s s newId customerId vendorId = (r, s') →
       ∃ cid, r.convId = some cid ∧
         createConversation vendors s' s' newId2 customerId vendorId =
           (.okExisting cid, s')) ∧
    (∀ racing s1, lookupPair s customerId vendorId = none →
       lookupPair s1 customerId vendorId = some racing →
         createConversation vendors s s1 newId customerId vendorId =
           (.okExisting racing.cid, s1)) ∧
    (∀ vid s1, validateVendorId vid = true →
       createConversation vendors s s1 newId vid vid =
         (.badRequest "Cannot create conversation with yourself", s1)) := by
  refine ⟨?_, ?_, ?_⟩
  · intro r s' h
    unfold createConversation at h ⊢
    rw [if_neg hc, if_neg (not_not_intro hv), if_neg hne, if_neg (not_not_intro hvend)]
      at h ⊢
    cases hlook : lookupPair s customerId vendorId with
    | some e =>
      rw [hlook] at h
      injection h with h1 h2
      subst h1; subst h2
      refine ⟨e.cid, rfl, ?_⟩
      rw [hlook]
    | none =>
      rw [hlook] at h
      injection h with h1 h2
      subst h1; subst h2
      refine ⟨newId, rfl, ?_⟩
      have hfind : lookupPair (⟨newId, customerId, vendorId⟩ :: s)
          customerId vendorId = some ⟨newId, customerId, vendorId⟩ := by
        unfold lookupPair
        rw [List.find?_cons_of_pos _ (by simp)]
      rw [hfind]
  · intro racing s1 h0 h1
    unfold createConversation
    rw [if_neg hc, if_neg (not_not_intro hv), if_neg hne, if_neg (not_not_intro hvend),
      h0, h1]
  · intro vid s1 hvv
    have hvne : vid ≠ "" := by
      intro he
      rw [he] at hvv
      simp [validateVendorId] at hvv
    unfold createConversation
    rw [if_neg hvne, if_neg (not_not_intro hvv), if_pos rfl]

theorem C8_get_or_create_idempotent_witness :
    ∃ cid, (CreateResult.created "conv1").convId = some cid ∧
      createConversation ["00000000-0000-4000-8000-000000000000"]
        [⟨"conv1", "cust1", "00000000-0000-4000-8000-000000000000"⟩]
        [⟨"conv1", "cust1", "00000000-0000-4000-8000-000000000000"⟩]
        "conv2" "cust1" "00000000-0000-4000-8000-000000000000" =
        (.okExisting cid,
         [⟨"conv1", "cust1", "00000000-0000-4000-8000-000000000000"⟩]) :=
  (C8_get_or_create_idempotent ["00000000-0000-4000-8000-000000000000"] []
      "conv1" "conv2" "cust1" "00000000-0000-4000-8000-000000000000"
      (by decide) (by decide) (by decide) (by decide)).1
    (.created "conv1")
    [⟨"conv1", "cust1", "00000000-0000-4000-8000-000000000000"⟩]
    (by decide)


/-! ### C9: message archiver (part_008, messageArchiver) -/

/-- A message row as the archiver sees it. -/
structure AMsg where
  mid : String
  created_at : Nat
  deriving Repr, DecidableEq

/-- An archive-table row: the message plus `archived_at`. -/
structure ArchivedMsg where
  msg : AMsg
  archived_at : Nat
  deriving Repr, DecidableEq

/-- The hot `messages` table and the cold `messages_archive` table. -/
structure Store where
  hot : List AMsg
  cold : List ArchivedMsg
  deriving Repr, DecidableEq

/-- Report of an archive run (`{archived: number, error?: string}`). -/
structure ArchiveReport where
  archived : Nat
  error : Option String
  deriving Repr, DecidableEq

/-- Report of a restore run (`{restored: number, error?: string}`). -/
structure RestoreReport where
  restored : Nat
  error : Option String
  deriving Repr, DecidableEq

/-- `archiveOldMessages` (part_008 lines 9-59): fetch the rows older than
the cutoff, copy them into the archive with `archived_at`, then delete
them from the hot table; each of the three database steps may fail with
an injected error. A fetch or copy failure leaves both tables unchanged;
a delete failure after a successful copy reports the archived count with
the distinct error `'Archived but failed to delete from main table'`. -/
def archiveOldMessages (cutoff nowTs : Nat)
    (fetchErr insertErr deleteErr : Option String) (st : Store) :
    ArchiveReport × Store :=
  match fetchErr with
  | some e => (⟨0, some e⟩, st)
  | none =>
    if (st.hot.filter fun m => decide (m.created_at < cutoff)) = [] then
      (⟨0, none⟩, st)
    else match insertErr with
      | some e => (⟨0, some e⟩, st)
      | none =>
        match deleteErr with
        | some _ =>
          (⟨(st.hot.filter fun m => decide (m.created_at < cutoff)).length,
            some "Archived but failed to delete from main table"⟩,
           ⟨st.hot,
            st.cold ++ (st.hot.filter fun m => decide (m.created_at < cutoff)).map
              fun m => ⟨m, nowTs⟩⟩)
        | none =>
          (⟨(st.hot.filter fun m => decide (m.created_at < cutoff)).length, none⟩,
           ⟨st.hot.filter fun m => !decide (m.created_at < cutoff),
            st.cold ++ (st.hot.filter fun m => decide (m.created_at < cutoff)).map
              fun m => ⟨m, nowTs⟩⟩)

/-- `restoreArchivedMessages` (part_008 lines 94-139): fetch the archive
rows with the given ids, insert them (without `archived_at`) back into
the hot table, then delete them from the archive; mirrors the archive
direction, with the delete-failure error
`'Restored but failed to delete from archive'`. -/
def restoreArchivedMessages (messageIds : List String)
    (fetchErr insertErr deleteErr : Option String) (st : Store) :
    RestoreReport × Store :=
  match fetchErr with
  | some e => (⟨0, some e⟩, st)
  | none =>
    if (st.cold.filter fun a => messageIds.contains a.msg.mid) = [] then
      (⟨0, none⟩, st)
    else match insertErr with
      | some e => (⟨0, some e⟩, st)
      | none =>
        match deleteErr with
        | some _ =>
          (⟨(st.cold.filter fun a => messageIds.contains a.msg.mid).length,
            some "Restored but failed to delete from archive"⟩,
           ⟨st.hot ++ (st.cold.filter fun a => messageIds.contains a.msg.mid).map
              ArchivedMsg.msg,
            st.cold⟩)
        | none =>
          (⟨(st.cold.filter fun a => messageIds.contains a.msg.mid).length, none⟩,
           ⟨st.hot ++ (st.cold.filter fun a => messageIds.contains a.msg.mid).map
              ArchivedMsg.msg,
            st.cold.filter fun a => !messageIds.contains a.msg.mid⟩)

/-- C9: (1) in every archive run, any message removed from the hot table
is present in the final archive (the delete only ever runs after the copy
succeeded); (2) when the copy succeeds but the delete fails, the run
reports the archived count together with the distinct error 'Archived but
failed to delete from main table' and the hot table keeps the rows; (3)
restore mirrors this: on a delete failure after a successful copy back it
reports 'Restored but failed to delete from archive' with the archive
unchanged. -/
theorem C9_archive_copy_before_delete
    (cutoff nowTs : Nat) (st : Store)
    (fetchErr insertErr deleteErr : Option String) (e : String)
    (messageIds : List String) :
    (∀ m : AMsg, m ∈ st.hot →
        m ∉ ((archiveOldMessages cutoff nowTs fetchErr insertErr deleteErr st).2).hot →
        (⟨m, nowTs⟩ : ArchivedMsg) ∈
          ((archiveOldMessages cutoff nowTs fetchErr insertErr deleteErr st).2).cold) ∧
    ((st.hot.filter fun m => decide (m.created_at < cutoff)) ≠ [] →
      archiveOldMessages cutoff nowTs none none (some e) st =
        (⟨(st.hot.filter fun m => decide (m.created_at < cutoff)).length,
           some "Archived but failed to delete from main table"⟩,
         ⟨st.hot,
          st.cold ++ (st.hot.filter fun m => decide (m.created_at < cutoff)).map
            fun m => ⟨m, nowTs⟩⟩)) ∧
    ((st.cold.filter fun a => messageIds.contains a.msg.mid) ≠ [] →
      restoreArchivedMessages messageIds none none (some e) st =
        (⟨(st.cold.filter fun a => messageIds.contains a.msg.mid).length,
           some "Restored but failed to delete from archive"⟩,
         ⟨st.hot ++ (st.cold.filter fun a => messageIds.contains a.msg.mid).map
            ArchivedMsg.msg,
          st.cold⟩)) := by
  refine ⟨?_, ?_, ?_⟩
  · intro m hm hnot
    cases fetchErr with
    | some e2 => exact absurd hm hnot
    | none =>
      by_cases h0 : (st.hot.filter fun m => decide (m.created_at < cutoff)) = []
      · simp only [archiveOldMessages] at hnot
        rw [if_pos h0] at hnot
        exact absurd hm hnot
      · cases insertErr with
        | some e2 =>
          simp only [archiveOldMessages] at hnot
          rw [if_neg h0] at hnot
          exact absurd hm hnot
        | none =>
          cases deleteErr with
          | some e2 =>
            simp only [archiveOldMessages] at hnot
            rw [if_neg h0] at hnot
            exact absurd hm hnot
          | none =>
            simp only [archiveOldMessages] at hnot ⊢
            rw [if_neg h0] at hnot ⊢
            have hlt : m.created_at < cutoff := by
              by_contra hge
              exact hnot (List.mem_filter.mpr ⟨hm, by simpa using hge⟩)
            refine List.mem_append.mpr (Or.inr ?_)
            exact List.mem_map.mpr
              ⟨m, List.mem_filter.mpr ⟨hm, by simpa using hlt⟩, rfl⟩
  · intro hn
    simp only [archiveOldMessages]
    rw [if_neg hn]
  · intro hn
    simp only [restoreArchivedMessages]
    rw [if_neg hn]

theorem C9_archive_copy_before_delete_witness :
    (Store.hot ⟨[⟨"m1", 0⟩], []⟩).filter (fun m => decide (m.created_at < 10)) ≠ [] ∧
    archiveOldMessages 10 100 none none (some "boom") ⟨[⟨"m1", 0⟩], []⟩ =
      (⟨((Store.hot ⟨[⟨"m1", 0⟩], []⟩).filter fun m => decide (m.created_at < 10)).length,
         some "Archived but failed to delete from main table"⟩,
       ⟨Store.hot ⟨[⟨"m1", 0⟩], []⟩,
        Store.cold ⟨[⟨"m1", 0⟩], []⟩ ++
          ((Store.hot ⟨[⟨"m1", 0⟩], []⟩).filter fun m => decide (m.created_at < 10)).map
            fun m => ⟨m, 100⟩⟩) :=
  ⟨by decide,
   (C9_archive_copy_before_delete 10 100 ⟨[⟨"m1", 0⟩], []⟩ none none none "boom"
      ["m1"]).2.1 (by decide)⟩


end ChatSpec
